import Mathlib

/-!
Shallow embedding of the JSON stream parser in
package/iot_gw_nxp/src/IotCommon/json.c.

The C module keeps a small pool of parser slots; all parsing entry points
operate on the currently selected slot.  We model one slot as the structure
ParserState below and the per-character entry points jsonEat / jsonEatNoLog
as state-transforming functions that also return the list of callback
invocations (events) performed during the call, in order.  All seven
callbacks are taken to be registered, so every callback site emits an event.

C strings (the name and value rows, the diagnostic context) are modelled as
List Char holding the characters before the terminating NUL; appending a NUL
character to a buffer leaves the abstract string unchanged, exactly as the
C code's writes do under string semantics.
-/

namespace Json

/-- MAXPARSERS in json.c. -/
def MAXPARSERS : Nat := 2

/-- MAXSTATES in json.c. -/
def MAXSTATES : Nat := 10

/-- MAXSTACK in json.c. -/
def MAXSTACK : Nat := 5

/-- MAXERRORBUFFER in json.c. -/
def MAXERRORBUFFER : Nat := 20

/-- MAXNAME in json.c. -/
def MAXNAME : Nat := 30

/-- MAXVALUE in json.c. -/
def MAXVALUE : Nat := 160

def STATE_NONE : Nat := 0
def STATE_INOBJECT : Nat := 1
def STATE_TONAME : Nat := 2
def STATE_INNAME : Nat := 3
def STATE_TOCOLUMN : Nat := 4
def STATE_TOVALUE : Nat := 5
def STATE_INSTRING : Nat := 6
def STATE_INNUM : Nat := 7
def STATE_INARRAY : Nat := 8
def STATE_OUTVALUE : Nat := 9

def ERR_NONE : Nat := 0
def ERR_DISCARD : Nat := 1
def ERR_NAMETOOLONG : Nat := 2
def ERR_VALUETOOLONG : Nat := 3
def ERR_PARSE_OBJECT : Nat := 4
def ERR_PARSE_NAME : Nat := 5
def ERR_PARSE_ILLNAME : Nat := 6
def ERR_PARSE_ASSIGNMENT : Nat := 7
def ERR_PARSE_VALUE : Nat := 8
def ERR_PARSE_ARRAY : Nat := 9
def ERR_INTERNAL : Nat := 10

/-- The static json_errors message table. -/
def json_errors : List String :=
  ["none", "discard", "name too long", "value too long", "parsing object",
   "parsing name", "illegal name char", "parsing assignment", "parsing value",
   "parsing array", "internal error"]

def errMsg (e : Nat) : String := json_errors.getD e ""

/-- The NUL character, value of an untouched byte of the static buffers. -/
def nulChar : Char := Char.ofNat 0

/-- isWhiteSpace in json.c. -/
def isWhiteSpace (c : Char) : Bool :=
  c = ' ' || c = '\r' || c = '\n' || c = '\t'

/-- isSign in json.c. -/
def isSign (c : Char) : Bool := c = '-' || c = '+'

/-- isNum in json.c. -/
def isNum (c : Char) : Bool := '0' ≤ c && c ≤ '9'

/-- isAlpha in json.c. -/
def isAlpha (c : Char) : Bool :=
  ('a' ≤ c && c ≤ 'z') || ('A' ≤ c && c ≤ 'Z')

/-- isValidNameChar in json.c. -/
def isValidNameChar (c : Char) : Bool :=
  isAlpha c || isNum c || c = '_' || c = '+'

/-- One parser slot: the parser_data_t structure of json.c, minus the seven
callback pointers (all callbacks are taken as registered; invocations are
returned as events). -/
structure ParserState where
  state : Nat
  states : List Nat
  stateIndex : Nat
  allowComma : Bool
  isSlash : Bool
  stack : Nat
  names : List (List Char)
  values : List (List Char)
  errbuf : List Char
  errbufIndex : Nat
  numchars : Nat
  deriving DecidableEq

/-- A slot of the static (zero-initialised) parserData array. -/
def initState : ParserState :=
  { state := STATE_NONE
    states := List.replicate MAXSTATES 0
    stateIndex := 0
    allowComma := false
    isSlash := false
    stack := 0
    names := List.replicate MAXSTACK []
    values := List.replicate MAXSTACK []
    errbuf := List.replicate MAXERRORBUFFER nulChar
    errbufIndex := 0
    numchars := 0 }

/-- One callback invocation. -/
inductive Event where
  | objectStart (name : List Char)
  | objectComplete (name : List Char)
  | arrayStart (name : List Char)
  | arrayComplete (name : List Char)
  | stringValue (name value : List Char)
  | integerValue (name : List Char) (value : Int)
  | error (code : Nat) (msg : String) (ctx : List Char)
  deriving DecidableEq

/-- Callback signature with diagnostic details (message text, context)
stripped, for stating claims about callback sequences. -/
inductive Sig where
  | objS (name : List Char)
  | objC (name : List Char)
  | arrS (name : List Char)
  | arrC (name : List Char)
  | str (name value : List Char)
  | int (name : List Char) (value : Int)
  | err (code : Nat)
  deriving DecidableEq

def sig : Event → Sig
  | .objectStart n => .objS n
  | .objectComplete n => .objC n
  | .arrayStart n => .arrS n
  | .arrayComplete n => .arrC n
  | .stringValue n v => .str n v
  | .integerValue n v => .int n v
  | .error c _ _ => .err c

def sigs (evs : List Event) : List Sig := evs.map sig

def errCodes (evs : List Event) : List Nat :=
  evs.filterMap fun e => match e with
    | .error c _ _ => some c
    | _ => none

def errCtxs (evs : List Event) : List (List Char) :=
  evs.filterMap fun e => match e with
    | .error _ _ x => some x
    | _ => none

/-- The content of a C string: the characters before the first NUL byte. -/
def cString (l : List Char) : List Char := l.takeWhile (· ≠ nulChar)

/-- The bytes jsonError copies out of the diagnostic ring buffer:
len = min(numchars, MAXERRORBUFFER) characters ending at errbufIndex. -/
def errWindow (s : ParserState) : List Char :=
  let len := min s.numchars MAXERRORBUFFER
  (List.range len).map fun i =>
    s.errbuf.getD ((s.errbufIndex + MAXERRORBUFFER - len + i) % MAXERRORBUFFER) nulChar

/-- jsonReset in json.c: clears the parse state of the slot.  Only row 0 of
the name and value arrays is cleared; the ring buffer bytes are kept (only
its index and the character count restart). -/
def jsonReset (s : ParserState) : ParserState :=
  { s with
    allowComma := false
    isSlash := false
    state := STATE_NONE
    stateIndex := 0
    stack := 0
    names := s.names.set 0 []
    values := s.values.set 0 []
    errbufIndex := 0
    numchars := 0 }

/-- jsonError in json.c: builds the context string from the ring buffer,
invokes the error callback, then resets the slot. -/
def jsonError (s : ParserState) (e : Nat) : ParserState × List Event :=
  (jsonReset s, [.error e (errMsg e) (cString (errWindow s))])

/-- The name row currently in scope (parser->name[parser->stack]). -/
def nameRow (s : ParserState) : List Char := s.names.getD s.stack []

/-- The value row currently in scope (parser->value[parser->stack]). -/
def valueRow (s : ParserState) : List Char := s.values.getD s.stack []

/-- appendName in json.c, under C-string semantics: appending NUL leaves the
string unchanged. -/
def appendName (s : ParserState) (c : Char) : ParserState × List Event :=
  let len := (nameRow s).length
  if len < MAXNAME then
    if c = nulChar then (s, [])
    else ({ s with names := s.names.set s.stack (nameRow s ++ [c]) }, [])
  else jsonError s ERR_NAMETOOLONG

/-- appendValue in json.c, under C-string semantics. -/
def appendValue (s : ParserState) (c : Char) : ParserState × List Event :=
  let len := (valueRow s).length
  if len < MAXVALUE then
    if c = nulChar then (s, [])
    else ({ s with values := s.values.set s.stack (valueRow s ++ [c]) }, [])
  else jsonError s ERR_VALUETOOLONG

/-- setState in json.c: assigns the state and performs the state's entry
action (clear name row, clear value row, or push a nesting level). -/
def setState (s : ParserState) (st : Nat) : ParserState × List Event :=
  let s := { s with state := st }
  if st = STATE_INNAME then
    ({ s with names := s.names.set s.stack [] }, [])
  else if st = STATE_TOVALUE then
    ({ s with values := s.values.set s.stack [] }, [])
  else if st = STATE_INOBJECT || st = STATE_INARRAY then
    let s := { s with stack := s.stack + 1 }
    if s.stack < MAXSTACK then
      ({ s with names := s.names.set s.stack [] }, [])
    else jsonError s ERR_INTERNAL
  else (s, [])

/-- toState in json.c: pushes the current state and enters the new one. -/
def toState (s : ParserState) (st : Nat) : ParserState × List Event :=
  let s := { s with states := s.states.set s.stateIndex s.state }
  let s := { s with stateIndex := s.stateIndex + 1 }
  if s.stateIndex < MAXSTATES then setState s st
  else jsonError s ERR_INTERNAL

/-- upState in json.c: pops one saved state; popping into an object or array
context drops one nesting level and allows a following comma; popping into
the idle state clears the current name row. -/
def upState (s : ParserState) : ParserState × List Event :=
  if s.stateIndex > 0 then
    let s := { s with stateIndex := s.stateIndex - 1 }
    let s := { s with state := s.states.getD s.stateIndex 0 }
    if s.state = STATE_INOBJECT || s.state = STATE_INARRAY then
      if s.stack > 0 then
        ({ s with stack := s.stack - 1, allowComma := true }, [])
      else jsonError s ERR_INTERNAL
    else if s.state = STATE_NONE then
      ({ s with names := s.names.set s.stack [] }, [])
    else (s, [])
  else jsonError s ERR_INTERNAL

/-- Modelled from the spec: the Atoi routine of atoi.h is not part of the
sources; the spec describes it as a string-to-integer conversion function
taking a bounded ASCII digit/sign string and returning a signed integer
value.  It is modelled as plain signed decimal conversion. -/
def Atoi (l : List Char) : Int :=
  let digits : List Char → Nat := fun ds =>
    ds.foldl (fun acc d => 10 * acc + (d.toNat - '0'.toNat)) 0
  match l with
  | '-' :: t => -(digits t : Int)
  | '+' :: t => (digits t : Int)
  | t => (digits t : Int)

/-- One dispatch of jsonEatNoLog's switch statement: the new state, the
callbacks invoked, and whether the same character must be re-dispatched
(the again flag). -/
def eatStep (s : ParserState) (c : Char) : ParserState × List Event × Bool :=
  if s.state = STATE_NONE then
    if c = '{' then
      let ev := [Event.objectStart (nameRow s)]
      let r1 := toState s STATE_INOBJECT
      let r2 := toState r1.1 STATE_TONAME
      ({ r2.1 with allowComma := false }, ev ++ r1.2 ++ r2.2, false)
    else if c = '"' then
      let r := toState s STATE_INNAME
      (r.1, r.2, false)
    else (s, [], false)
  else if s.state = STATE_INOBJECT then
    if c = '}' then
      let ev := [Event.objectComplete (nameRow s)]
      let r := upState s
      (r.1, ev ++ r.2, false)
    else if c = '"' then
      let r := toState s STATE_INNAME
      (r.1, r.2, false)
    else if c = ',' && s.allowComma then
      let r := toState { s with allowComma := false } STATE_TONAME
      (r.1, r.2, false)
    else if !isWhiteSpace c then
      let r := jsonError s ERR_PARSE_OBJECT
      (r.1, r.2, false)
    else (s, [], false)
  else if s.state = STATE_TONAME then
    if c = '"' then
      let r := setState s STATE_INNAME
      (r.1, r.2, false)
    else if !isWhiteSpace c then
      let r := jsonError s ERR_PARSE_NAME
      (r.1, r.2, false)
    else (s, [], false)
  else if s.state = STATE_INNAME then
    if c = '"' then
      let r := setState s STATE_TOCOLUMN
      (r.1, r.2, false)
    else if isValidNameChar c then
      let r := appendName s c
      (r.1, r.2, false)
    else
      let r := jsonError s ERR_PARSE_ILLNAME
      (r.1, r.2, false)
  else if s.state = STATE_TOCOLUMN then
    if c = ':' then
      let r := setState s STATE_TOVALUE
      (r.1, r.2, false)
    else if !isWhiteSpace c then
      let r := jsonError s ERR_PARSE_ASSIGNMENT
      (r.1, r.2, false)
    else (s, [], false)
  else if s.state = STATE_TOVALUE then
    if c = '"' then
      let r := setState { s with isSlash := false } STATE_INSTRING
      (r.1, r.2, false)
    else if isNum c || isSign c then
      let r1 := appendValue s c
      let r2 := setState r1.1 STATE_INNUM
      (r2.1, r1.2 ++ r2.2, false)
    else if c = '[' then
      let ev := [Event.arrayStart (nameRow s)]
      let r1 := setState s STATE_INARRAY
      let r2 := toState r1.1 STATE_TONAME
      (r2.1, ev ++ r1.2 ++ r2.2, false)
    else if c = '{' then
      let ev := [Event.objectStart (nameRow s)]
      let r1 := setState s STATE_INOBJECT
      let r2 := toState r1.1 STATE_TONAME
      (r2.1, ev ++ r1.2 ++ r2.2, false)
    else if !isWhiteSpace c then
      let r := jsonError s ERR_PARSE_VALUE
      (r.1, r.2, false)
    else (s, [], false)
  else if s.state = STATE_INSTRING then
    if !s.isSlash && c = '\\' then
      ({ s with isSlash := true }, [], false)
    else if s.isSlash then
      let r1 := appendValue { s with isSlash := false } '\\'
      let r2 := appendValue r1.1 c
      (r2.1, r1.2 ++ r2.2, false)
    else if c = '"' then
      let ev := [Event.stringValue (nameRow s) (valueRow s)]
      let r := setState s STATE_OUTVALUE
      (r.1, ev ++ r.2, false)
    else
      let r := appendValue s c
      (r.1, r.2, false)
  else if s.state = STATE_INNUM then
    if isNum c then
      let r := appendValue s c
      (r.1, r.2, false)
    else
      let ev := [Event.integerValue (nameRow s) (Atoi (valueRow s))]
      let r := setState s STATE_OUTVALUE
      (r.1, ev ++ r.2, true)
  else if s.state = STATE_INARRAY then
    if c = ']' then
      let ev := [Event.arrayComplete (nameRow s)]
      let r := upState s
      (r.1, ev ++ r.2, false)
    else if c = '"' then
      let r := toState s STATE_INNAME
      (r.1, r.2, false)
    else if c = ',' && s.allowComma then
      let r := toState { s with allowComma := false } STATE_TONAME
      (r.1, r.2, false)
    else if !isWhiteSpace c then
      let r := jsonError s ERR_PARSE_ARRAY
      (r.1, r.2, false)
    else (s, [], false)
  else if s.state = STATE_OUTVALUE then
    if !isWhiteSpace c then
      if c = ',' then
        let r := toState s STATE_TONAME
        (r.1, r.2, false)
      else
        let r := upState s
        (r.1, r.2, true)
    else (s, [], false)
  else (s, [], false)

/-- jsonEatNoLog's re-dispatch loop, with explicit fuel.  A dispatch chain
only continues from the number-completion and after-value cases, each of
which either keeps the state index and moves off STATE_INNUM or pops one
saved state, so 2 * stateIndex + 4 units of fuel always suffice. -/
def eatFuel : Nat → ParserState → Char → ParserState × List Event
  | 0, s, _ => (s, [])
  | fuel + 1, s, c =>
    let r := eatStep s c
    if r.2.2 then
      let q := eatFuel fuel r.1 c
      (q.1, r.2.1 ++ q.2)
    else (r.1, r.2.1)

/-- jsonEatNoLog in json.c. -/
def jsonEatNoLog (s : ParserState) (c : Char) : ParserState × List Event :=
  eatFuel (2 * s.stateIndex + 4) s c

/-- jsonEat in json.c: counts the character, logs it in the diagnostic ring
buffer when it is not whitespace, then runs the state machine. -/
def jsonEat (s : ParserState) (c : Char) : ParserState × List Event :=
  let s := { s with numchars := s.numchars + 1 }
  let s :=
    if isWhiteSpace c then s
    else
      let s := { s with
        errbuf := s.errbuf.set s.errbufIndex c
        errbufIndex := s.errbufIndex + 1 }
      if s.errbufIndex ≥ MAXERRORBUFFER then { s with errbufIndex := 0 } else s
  jsonEatNoLog s c

/-- Feed a list of characters one at a time, collecting all events. -/
def feedList : ParserState → List Char → ParserState × List Event
  | s, [] => (s, [])
  | s, c :: cs =>
    let r := jsonEat s c
    let q := feedList r.1 cs
    (q.1, r.2 ++ q.2)

/-- The parser pool: the parserData array of MAXPARSERS slots together with
the parser pointer, which always designates one of the slots.  The slot type
is left abstract, standing for the full parser_data_t record (parse state,
buffers and registered callbacks alike), since the switching code never
inspects it. -/
structure Pool (σ : Type) where
  slots : List σ
  sel : Fin MAXPARSERS

/-- jsonGetSelected in json.c: the index of the slot the parser pointer
designates. -/
def jsonGetSelected {σ : Type} (p : Pool σ) : Nat := p.sel.val

/-- jsonSelectNext in json.c: advance the parser pointer unless it is at the
last slot (in which case it only logs and leaves everything unchanged). -/
def jsonSelectNext {σ : Type} (p : Pool σ) : Pool σ :=
  if h : jsonGetSelected p < MAXPARSERS - 1 then
    { p with sel := ⟨jsonGetSelected p + 1, by unfold MAXPARSERS at h ⊢; omega⟩ }
  else p

/-- jsonSelectPrev in json.c: move the parser pointer back unless it is at
the first slot. -/
def jsonSelectPrev {σ : Type} (p : Pool σ) : Pool σ :=
  if jsonGetSelected p > 0 then
    { p with sel := ⟨jsonGetSelected p - 1, by have := p.sel.isLt; unfold jsonGetSelected; omega⟩ }
  else p

/-- The three diagnostic ring-buffer components of a slot: buffer bytes,
write index, character count. -/
def ringOf (s : ParserState) : List Char × Nat × Nat :=
  (s.errbuf, s.errbufIndex, s.numchars)

/-- Replace the ring-buffer components of a slot. -/
def setRing (s : ParserState) (r : List Char × Nat × Nat) : ParserState :=
  { s with errbuf := r.1, errbufIndex := r.2.1, numchars := r.2.2 }

/-- A call result respects the diagnostic ring: if it reports no error it
leaves the ring components untouched, and the context of its first error
event is the window of the ring as it stood on entry. -/
def RingOk (s : ParserState) (r : ParserState × List Event) : Prop :=
  (errCtxs r.2 = [] → ringOf r.1 = ringOf s) ∧
  (∀ x, (errCtxs r.2).head? = some x → x = cString (errWindow s))

/-- RingOk for a dispatch result carrying the again flag. -/
def RingOk3 (s : ParserState) (r : ParserState × List Event × Bool) : Prop :=
  RingOk s (r.1, r.2.1)

/-- The window jsonError reads out of a ring-buffer triple. -/
def windowR (r : List Char × Nat × Nat) : List Char :=
  let len := min r.2.2 MAXERRORBUFFER
  (List.range len).map fun i =>
    r.1.getD ((r.2.1 + MAXERRORBUFFER - len + i) % MAXERRORBUFFER) nulChar

/-- The logging prelude of jsonEat as a pure function on the ring triple:
count the character, and store it at the write index (wrapping) when it is
not whitespace. -/
def logRing (r : List Char × Nat × Nat) (c : Char) : List Char × Nat × Nat :=
  let r := (r.1, r.2.1, r.2.2 + 1)
  if isWhiteSpace c then r
  else
    let buf := r.1.set r.2.1 c
    let idx := r.2.1 + 1
    if idx ≥ MAXERRORBUFFER then (buf, 0, r.2.2) else (buf, idx, r.2.2)

/-- The ring triple of a zero-initialised slot. -/
def initRing : List Char × Nat × Nat :=
  (List.replicate MAXERRORBUFFER nulChar, 0, 0)

/-- An ordinary streamed character: not whitespace and not NUL. -/
def goodChar (c : Char) : Bool := !isWhiteSpace c && !(c = nulChar)

/-- A string-value body whose escape sequences are exactly the two-character
sequences backslash-quote and backslash-backslash: no unescaped quote or
backslash, no NUL byte, and no trailing lone backslash. -/
def escOk : List Char → Bool
  | [] => true
  | '\\' :: c :: r => (c = '\\' || c = '"') && escOk r
  | '\\' :: [] => false
  | c :: r => !(c = '"') && !(c = '\\') && !(c = nulChar) && escOk r

/-- The document of the array scenario: an object with field a holding the
array 1, 2, 3. -/
def doc1 : List Char := "\x7b\"a\":[1,2,3]\x7d".toList

/-- Five unclosed nested objects: drives the name/value stack past
MAXSTACK at the innermost opening brace. -/
def doc2 : List Char := "\x7b\"a\":\x7b\"b\":\x7b\"c\":\x7b\"d\":\x7b".toList

/-- An open brace, a space, then an exclamation mark: a parse error whose
consumed input contains whitespace. -/
def doc4 : List Char := "\x7b !".toList

/-- The document of the simple scenario: an object with field a holding the
integer 1. -/
def doc7 : List Char := "\x7b\"a\":1\x7d".toList

/-- An object field a holding a nested object, closed, then a second field
name c and its colon: leaves the slot expecting a value with the
comma-allowed flag still set. -/
def doc8 : List Char := "\x7b\"a\":\x7b\"x\":1\x7d\"c\":".toList

/-- An opening brace, a quote, and twenty-nine name characters: reaches a
name buffer of length MAXNAME - 1. -/
def doc10 : List Char := "\x7b\"".toList ++ List.replicate 29 'a'

/-- An opening brace, a quote, and thirty-one name characters: one more
than MAXNAME. -/
def doc3pre : List Char := "\x7b\"".toList ++ List.replicate 31 'a'

/-- The too-long-name document: the long field name, then a string value,
a comma, and a well-formed second field. -/
def doc3 : List Char := doc3pre ++ "\":\"v\",\"b\":\"z\"\x7d".toList

/-- The slot state after feeding an opening brace and a quote to a fresh
slot: inside the first field name of a top-level object. -/
def innameStart : ParserState :=
  { state := STATE_INNAME
    states := [0, 1, 0, 0, 0, 0, 0, 0, 0, 0]
    stateIndex := 2
    allowComma := false
    isSlash := false
    stack := 1
    names := List.replicate MAXSTACK []
    values := List.replicate MAXSTACK []
    errbuf := ['\x7b', '\"'] ++ List.replicate 18 nulChar
    errbufIndex := 2
    numchars := 2 }

/-- The slot state after feeding open-brace, quote, a, quote, colon, quote
to a fresh slot: at the start of the string value of field a. -/
def instringStart : ParserState :=
  { state := STATE_INSTRING
    states := [0, 1, 0, 0, 0, 0, 0, 0, 0, 0]
    stateIndex := 2
    allowComma := false
    isSlash := false
    stack := 1
    names := [[], ['a'], [], [], []]
    values := List.replicate MAXSTACK []
    errbuf := ['\x7b', '\"', 'a', '\"', ':', '\"'] ++ List.replicate 14 nulChar
    errbufIndex := 6
    numchars := 6 }

/-- The control fields of a slot: state, state stack, nesting level and
flags (the buffers and the diagnostic ring are excluded). -/
def coreOf (s : ParserState) : Nat × List Nat × Nat × Bool × Bool × Nat :=
  (s.state, s.states, s.stateIndex, s.allowComma, s.isSlash, s.stack)

/-- Clearing row zero leaves row zero empty, whatever the list was. -/
theorem getD_set_zero_nil (l : List (List Char)) :
    (l.set 0 ([] : List Char)).getD 0 [] = [] := by
  cases l <;> simp [List.getD]

/-- C1.  The claim predicts the seven callbacks of a successful array parse;
the code instead raises the malformed-name error at the first bare digit,
because after an opening bracket the slot expects a quoted name.  At the
concrete document of the scenario the callback sequence is object-start,
array-start, error, and differs from the claimed one. -/
theorem C1_counterexample :
    sigs (feedList initState doc1).2 =
      [.objS [], .arrS ['a'], .err ERR_PARSE_NAME] ∧
    sigs (feedList initState doc1).2 ≠
      [.objS [], .arrS ['a'], .int ['a'] 1, .int ['a'] 2, .int ['a'] 3,
       .arrC ['a'], .objC []] := by
  decide

/-- C1 amended: feeding the array document to a fresh slot with all
callbacks registered produces object-start of the empty name, array-start
of name a, then the malformed-name error (code ERR_PARSE_NAME, context the
seven non-whitespace characters consumed); the slot is reset and the
remaining characters are discarded with no further callbacks. -/
theorem C1_thm :
    (feedList initState doc1).2 =
      [.objectStart [], .arrayStart ['a'],
       .error ERR_PARSE_NAME "parsing name" "\x7b\"a\":[1".toList] ∧
    (feedList initState doc1).1.state = STATE_NONE ∧
    (feedList initState doc1).1.stateIndex = 0 ∧
    (feedList initState doc1).1.stack = 0 := by
  decide

/-- C2.  Feeding five unclosed nested objects overflows the name/value
stack at the innermost opening brace: the error callback fires (code
ERR_INTERNAL), but the processing of that same character continues after
the reset, pushing one saved state, so when the feed call returns the slot
is in STATE_TONAME with a one-deep state stack rather than Idle. -/
theorem C2_counterexample :
    errCodes (feedList initState doc2).2 = [ERR_INTERNAL] ∧
    ¬((feedList initState doc2).1.state = STATE_NONE ∧
      (feedList initState doc2).1.stateIndex = 0) ∧
    (feedList initState doc2).1.state = STATE_TONAME ∧
    (feedList initState doc2).1.stateIndex = 1 := by
  decide

/-- C2 amended: whenever the error callback fires, jsonError resets the
slot (Idle state, empty state stack, nesting level zero, cleared flags and
cleared row-zero buffers) before it returns; the remainder of the feed step
that triggered the error may modify the freshly reset slot afterwards, so
the slot need not still be Idle when the feed call itself returns. -/
theorem C2_thm (s : ParserState) (e : Nat) :
    (jsonError s e).1.state = STATE_NONE ∧
    (jsonError s e).1.stateIndex = 0 ∧
    (jsonError s e).1.stack = 0 ∧
    (jsonError s e).1.allowComma = false ∧
    (jsonError s e).1.isSlash = false ∧
    (jsonError s e).1.names.getD 0 [] = [] ∧
    (jsonError s e).1.values.getD 0 [] = [] ∧
    errCodes (jsonError s e).2 = [e] := by
  refine ⟨rfl, rfl, rfl, rfl, rfl, ?_, ?_, ?_⟩
  · show ((jsonReset s).names).getD 0 [] = []
    exact getD_set_zero_nil s.names
  · show ((jsonReset s).values).getD 0 [] = []
    exact getD_set_zero_nil s.values
  · simp [jsonError, errCodes]

/-- C4.  The window length jsonError uses is min of MAXERRORBUFFER and
numchars, and numchars counts every character fed, whitespace included;
with the three-character input open-brace, space, exclamation mark the
window is three ring slots, one of which was never written, so the context
delivered to the error callback is the C string starting with a NUL byte,
namely the empty string, not the two recent non-whitespace characters the
claim predicts. -/
theorem C4_counterexample :
    errCodes (feedList initState doc4).2 = [ERR_PARSE_NAME] ∧
    errCtxs (feedList initState doc4).2 = [[]] ∧
    errCtxs (feedList initState doc4).2 ≠ ["\x7b!".toList] := by
  decide

/-- C7.  Feeding the simple one-field document to a fresh slot with all
callbacks registered produces exactly object-start of the empty name,
integer-value of name a and value 1, object-complete of the empty name, in
that order, with no error callback. -/
theorem C7_thm :
    (feedList initState doc7).2 =
      [.objectStart [], .integerValue ['a'] 1, .objectComplete []] ∧
    errCodes (feedList initState doc7).2 = [] := by
  decide

set_option maxRecDepth 8000 in
/-- C8.  After parsing a completed nested object and a following field name
and colon, the comma-allowed flag is set; consuming the opening brace of a
second nested object (an object-entering transition, witnessed by the
object-start callback) leaves the flag set: entering a nested object does
not clear it, contradicting the claim that every object or array entry
clears the flag. -/
theorem C8_counterexample :
    (feedList initState doc8).1.state = STATE_TOVALUE ∧
    (feedList initState doc8).1.allowComma = true ∧
    sigs (jsonEat (feedList initState doc8).1 '\x7b').2 = [.objS ['c']] ∧
    (jsonEat (feedList initState doc8).1 '\x7b').1.allowComma = true := by
  decide

set_option maxRecDepth 8000 in
/-- C10.  The guard of appendName admits a name buffer of length
MAXNAME - 1 (reachable: opening brace, quote, twenty-nine valid name
characters, with no error raised), and for that length the guard
len < MAXNAME holds while the terminating NUL index len + 1 = MAXNAME is
not a valid index of the MAXNAME-byte row: the write lands one byte past
the buffer.  The analogous appendValue guard admits len = MAXVALUE - 1 with
NUL index MAXVALUE.  The claim that both writes stay inside the buffer is
the evident intent of the guard, and of the specification's promise that
the library never corrupts memory; the code is off by one. -/
theorem C10_thm :
    (nameRow (feedList initState doc10).1).length = MAXNAME - 1 ∧
    errCodes (feedList initState doc10).2 = [] ∧
    MAXNAME - 1 < MAXNAME ∧
    ¬(MAXNAME - 1 + 1 < MAXNAME) ∧
    ¬(MAXVALUE - 1 + 1 < MAXVALUE) := by
  decide

/-- C9.  Selecting the next slot at the last slot and the previous slot at
the first are no-ops on the whole pool; otherwise they move the selected
index by exactly one; and no switching operation modifies the slots
themselves, whose type is abstract and stands for the complete slot record
including parse state and registered callbacks. -/
theorem C9_thm {σ : Type} (p : Pool σ) :
    (jsonSelectNext p).slots = p.slots ∧
    (jsonSelectPrev p).slots = p.slots ∧
    jsonGetSelected p = p.sel.val ∧
    (jsonGetSelected p = MAXPARSERS - 1 → jsonSelectNext p = p) ∧
    (jsonGetSelected p < MAXPARSERS - 1 →
      jsonGetSelected (jsonSelectNext p) = jsonGetSelected p + 1) ∧
    (jsonGetSelected p = 0 → jsonSelectPrev p = p) ∧
    (0 < jsonGetSelected p →
      jsonGetSelected (jsonSelectPrev p) = jsonGetSelected p - 1) := by
  refine ⟨?_, ?_, rfl, ?_, ?_, ?_, ?_⟩
  · unfold jsonSelectNext; split <;> rfl
  · unfold jsonSelectPrev; split <;> rfl
  · intro h; unfold jsonSelectNext; rw [dif_neg (by omega)]
  · intro h; unfold jsonSelectNext; rw [dif_pos h]; rfl
  · intro h; unfold jsonSelectPrev; rw [if_neg (by omega)]
  · intro h; unfold jsonSelectPrev; rw [if_pos h]; rfl

/-- C9 witness: on a concrete two-slot pool selected at index zero,
select-next moves the index to one and both switching operations leave the
slots untouched. -/
theorem C9_witness :
    jsonGetSelected (jsonSelectNext (⟨[initState, initState], ⟨0, by decide⟩⟩ :
      Pool ParserState)) = 1 ∧
    (jsonSelectNext (⟨[initState, initState], ⟨0, by decide⟩⟩ :
      Pool ParserState)).slots = [initState, initState] ∧
    (jsonSelectPrev (⟨[initState, initState], ⟨0, by decide⟩⟩ :
      Pool ParserState)) = ⟨[initState, initState], ⟨0, by decide⟩⟩ := by
  refine ⟨?_, ?_, ?_⟩
  · have h := C9_thm (⟨[initState, initState], ⟨0, by decide⟩⟩ : Pool ParserState)
    simpa using h.2.2.2.2.1 (by decide)
  · exact (C9_thm _).1
  · exact (C9_thm (⟨[initState, initState], ⟨0, by decide⟩⟩ : Pool ParserState)).2.2.2.2.2.1 rfl

theorem setRing_state (s : ParserState) (r : List Char × Nat × Nat) :
    (setRing s r).state = s.state := rfl

theorem setRing_states (s : ParserState) (r : List Char × Nat × Nat) :
    (setRing s r).states = s.states := rfl

theorem setRing_stateIndex (s : ParserState) (r : List Char × Nat × Nat) :
    (setRing s r).stateIndex = s.stateIndex := rfl

theorem setRing_allowComma (s : ParserState) (r : List Char × Nat × Nat) :
    (setRing s r).allowComma = s.allowComma := rfl

theorem setRing_isSlash (s : ParserState) (r : List Char × Nat × Nat) :
    (setRing s r).isSlash = s.isSlash := rfl

theorem setRing_stack (s : ParserState) (r : List Char × Nat × Nat) :
    (setRing s r).stack = s.stack := rfl

theorem setRing_names (s : ParserState) (r : List Char × Nat × Nat) :
    (setRing s r).names = s.names := rfl

theorem setRing_values (s : ParserState) (r : List Char × Nat × Nat) :
    (setRing s r).values = s.values := rfl

theorem nameRow_setRing (s : ParserState) (r : List Char × Nat × Nat) :
    nameRow (setRing s r) = nameRow s := rfl

theorem valueRow_setRing (s : ParserState) (r : List Char × Nat × Nat) :
    valueRow (setRing s r) = valueRow s := rfl

/-- jsonEat is jsonEatNoLog after the pure ring-logging prelude. -/
theorem jsonEat_eq (s : ParserState) (c : Char) :
    jsonEat s c = jsonEatNoLog (setRing s (logRing (ringOf s) c)) c := by
  simp only [jsonEat, setRing, logRing, ringOf]
  split
  · rfl
  · split <;> rfl

/-- Unfold one dispatch of the re-dispatch loop. -/
theorem jsonEatNoLog_eq (s : ParserState) (c : Char) :
    jsonEatNoLog s c =
      (let r := eatStep s c
       if r.2.2 then
         let q := eatFuel (2 * s.stateIndex + 3) r.1 c
         (q.1, r.2.1 ++ q.2)
       else (r.1, r.2.1)) := by
  have h : 2 * s.stateIndex + 4 = (2 * s.stateIndex + 3) + 1 := by omega
  unfold jsonEatNoLog
  rw [h]
  rfl

/-- A dispatch that does not set the again flag is the whole call. -/
theorem jsonEatNoLog_step (s : ParserState) (c : Char)
    (h : (eatStep s c).2.2 = false) :
    jsonEatNoLog s c = ((eatStep s c).1, (eatStep s c).2.1) := by
  rw [jsonEatNoLog_eq]
  simp [h]

/-- jsonEat in terms of a single non-redispatching eatStep on the
ring-logged state. -/
theorem jsonEat_step (s : ParserState) (c : Char)
    (h : (eatStep (setRing s (logRing (ringOf s) c)) c).2.2 = false) :
    jsonEat s c =
      ((eatStep (setRing s (logRing (ringOf s) c)) c).1,
       (eatStep (setRing s (logRing (ringOf s) c)) c).2.1) := by
  rw [jsonEat_eq, jsonEatNoLog_step _ _ h]

/-- Feeding a concatenation feeds the parts in order. -/
theorem feedList_append (s : ParserState) (xs ys : List Char) :
    feedList s (xs ++ ys) =
      ((feedList (feedList s xs).1 ys).1,
       (feedList s xs).2 ++ (feedList (feedList s xs).1 ys).2) := by
  induction xs generalizing s with
  | nil => simp [feedList]
  | cons c cs ih => simp [feedList, ih (jsonEat s c).1]

/-- A valid name character is not the double quote. -/
theorem validNameChar_ne_quote {c : Char} (h : isValidNameChar c = true) :
    ¬(c = '"') := by
  intro hc
  subst hc
  exact absurd h (by decide)

/-- A valid name character is not NUL. -/
theorem validNameChar_ne_nul {c : Char} (h : isValidNameChar c = true) :
    ¬(c = nulChar) := by
  intro hc
  subst hc
  exact absurd h (by decide)

/-- Reading back the row just written. -/
theorem getD_set_self (l : List (List Char)) (i : Nat) (x : List Char)
    (h : i < l.length) : (l.set i x).getD i [] = x := by
  rw [List.getD_eq_getElem _ _ (by simpa using h)]
  simp [List.getElem_set]

/-- Reading another row after a write. -/
theorem getD_set_other (l : List (List Char)) (i j : Nat) (x : List Char)
    (h : i ≠ j) : (l.set i x).getD j [] = l.getD j [] := by
  simp [List.getD_eq_getD_get?, List.get?_eq_getElem?, List.getElem?_set_ne h]

/-- In STATE_INNAME a valid name character below the length bound is
appended to the current name row with no callback. -/
theorem eatStep_inname_valid (s : ParserState) (c : Char)
    (h1 : s.state = STATE_INNAME) (hv : isValidNameChar c = true)
    (hlen : (nameRow s).length < MAXNAME) :
    eatStep s c =
      ({ s with names := s.names.set s.stack (nameRow s ++ [c]) }, [], false) := by
  have hq := validNameChar_ne_quote hv
  have hnul := validNameChar_ne_nul hv
  simp [eatStep, h1, STATE_NONE, STATE_INOBJECT, STATE_TONAME, STATE_INNAME,
    hq, hv, appendName, hlen, hnul]

/-- jsonEat in STATE_INNAME on a valid name character below the bound:
no callback, control fields and value rows unchanged, the character
appended to the current name row. -/
theorem jsonEat_inname_valid (s : ParserState) (c : Char)
    (h1 : s.state = STATE_INNAME) (hv : isValidNameChar c = true)
    (hlen : (nameRow s).length < MAXNAME) :
    (jsonEat s c).2 = [] ∧
    (jsonEat s c).1.state = s.state ∧
    (jsonEat s c).1.states = s.states ∧
    (jsonEat s c).1.stateIndex = s.stateIndex ∧
    (jsonEat s c).1.allowComma = s.allowComma ∧
    (jsonEat s c).1.isSlash = s.isSlash ∧
    (jsonEat s c).1.stack = s.stack ∧
    (jsonEat s c).1.values = s.values ∧
    (jsonEat s c).1.names = s.names.set s.stack (nameRow s ++ [c]) := by
  have hs := eatStep_inname_valid (setRing s (logRing (ringOf s) c)) c h1 hv hlen
  have key := jsonEat_step s c (by rw [hs])
  rw [key, hs]
  exact ⟨rfl, rfl, rfl, rfl, rfl, rfl, rfl, rfl, rfl⟩

/-- Unfolding eatFuel when the dispatch does not redispatch. -/
theorem eatFuel_succ_step (n : Nat) (s : ParserState) (c : Char)
    (h : (eatStep s c).2.2 = false) :
    eatFuel (n + 1) s c = ((eatStep s c).1, (eatStep s c).2.1) := by
  show (let r := eatStep s c;
        if r.2.2 then
          let q := eatFuel n r.1 c
          (q.1, r.2.1 ++ q.2)
        else (r.1, r.2.1)) = _
  simp [h]

/-- Unfolding eatFuel when the dispatch redispatches the character. -/
theorem eatFuel_succ_again (n : Nat) (s : ParserState) (c : Char)
    (h : (eatStep s c).2.2 = true) :
    eatFuel (n + 1) s c =
      ((eatFuel n (eatStep s c).1 c).1,
       (eatStep s c).2.1 ++ (eatFuel n (eatStep s c).1 c).2) := by
  show (let r := eatStep s c;
        if r.2.2 then
          let q := eatFuel n r.1 c
          (q.1, r.2.1 ++ q.2)
        else (r.1, r.2.1)) = _
  simp [h]

/-- In STATE_INNAME a closing quote moves to STATE_TOCOLUMN. -/
theorem jsonEat_inname_close (s : ParserState) (h1 : s.state = STATE_INNAME) :
    jsonEat s '"' =
      ({ setRing s (logRing (ringOf s) '"') with state := STATE_TOCOLUMN }, []) := by
  have hs : eatStep (setRing s (logRing (ringOf s) '"')) '"' =
      ({ setRing s (logRing (ringOf s) '"') with state := STATE_TOCOLUMN }, [], false) := by
    simp [eatStep, setRing_state, h1, STATE_NONE, STATE_INOBJECT, STATE_TONAME,
      STATE_INNAME, STATE_TOCOLUMN, setState, STATE_TOVALUE, STATE_INARRAY]
  rw [jsonEat_step s '"' (by rw [hs])]
  rw [hs]

/-- In STATE_TOCOLUMN a colon moves to STATE_TOVALUE and clears the current
value row. -/
theorem jsonEat_tocolumn_colon (s : ParserState) (h1 : s.state = STATE_TOCOLUMN) :
    jsonEat s ':' =
      ({ setRing s (logRing (ringOf s) ':') with
          state := STATE_TOVALUE, values := s.values.set s.stack [] }, []) := by
  have hs : eatStep (setRing s (logRing (ringOf s) ':')) ':' =
      ({ setRing s (logRing (ringOf s) ':') with
          state := STATE_TOVALUE, values := s.values.set s.stack [] }, [], false) := by
    simp [eatStep, setRing_state, setRing_values, setRing_stack, h1, STATE_NONE,
      STATE_INOBJECT, STATE_TONAME, STATE_INNAME, STATE_TOCOLUMN, setState,
      STATE_TOVALUE, STATE_INARRAY]
  rw [jsonEat_step s ':' (by rw [hs])]
  rw [hs]

/-- In STATE_TOVALUE an opening quote clears the escape flag and enters
STATE_INSTRING. -/
theorem jsonEat_tovalue_quote (s : ParserState) (h1 : s.state = STATE_TOVALUE) :
    jsonEat s '"' =
      ({ setRing s (logRing (ringOf s) '"') with
          isSlash := false, state := STATE_INSTRING }, []) := by
  have hs : eatStep (setRing s (logRing (ringOf s) '"')) '"' =
      ({ setRing s (logRing (ringOf s) '"') with
          isSlash := false, state := STATE_INSTRING }, [], false) := by
    simp [eatStep, setRing_state, h1, STATE_NONE, STATE_INOBJECT, STATE_TONAME,
      STATE_INNAME, STATE_TOCOLUMN, setState, STATE_TOVALUE, STATE_INSTRING,
      STATE_INARRAY]
  rw [jsonEat_step s '"' (by rw [hs])]
  rw [hs]

/-- In STATE_INSTRING with no pending escape, an ordinary character below
the length bound is appended to the current value row. -/
theorem jsonEat_instring_char (s : ParserState) (c : Char)
    (h1 : s.state = STATE_INSTRING) (h2 : s.isSlash = false)
    (h3 : ¬(c = '\\')) (h4 : ¬(c = '"')) (h5 : ¬(c = nulChar))
    (h6 : (valueRow s).length < MAXVALUE) :
    jsonEat s c =
      ({ setRing s (logRing (ringOf s) c) with
          values := s.values.set s.stack (valueRow s ++ [c]) }, []) := by
  have hs : eatStep (setRing s (logRing (ringOf s) c)) c =
      ({ setRing s (logRing (ringOf s) c) with
          values := s.values.set s.stack (valueRow s ++ [c]) }, [], false) := by
    simp [eatStep, setRing_state, setRing_isSlash, setRing_values, setRing_stack,
      h1, h2, h3, h4, h5, STATE_NONE, STATE_INOBJECT, STATE_TONAME, STATE_INNAME,
      STATE_TOCOLUMN, STATE_TOVALUE, STATE_INSTRING, appendValue, valueRow_setRing, h6]
  rw [jsonEat_step s c (by rw [hs])]
  rw [hs]

/-- In STATE_INSTRING with no pending escape, a backslash only sets the
escape flag. -/
theorem jsonEat_instring_backslash (s : ParserState)
    (h1 : s.state = STATE_INSTRING) (h2 : s.isSlash = false) :
    jsonEat s '\\' =
      ({ setRing s (logRing (ringOf s) '\\') with isSlash := true }, []) := by
  have hs : eatStep (setRing s (logRing (ringOf s) '\\')) '\\' =
      ({ setRing s (logRing (ringOf s) '\\') with isSlash := true }, [], false) := by
    simp [eatStep, setRing_state, setRing_isSlash, h1, h2, STATE_NONE,
      STATE_INOBJECT, STATE_TONAME, STATE_INNAME, STATE_TOCOLUMN, STATE_TOVALUE,
      STATE_INSTRING]
  rw [jsonEat_step s '\\' (by rw [hs])]
  rw [hs]

/-- Appending a non-NUL character below the length bound to the value
buffer. -/
theorem appendValue_ok (s : ParserState) (c : Char)
    (h5 : ¬(c = nulChar)) (h6 : (valueRow s).length < MAXVALUE) :
    appendValue s c =
      ({ s with values := s.values.set s.stack (valueRow s ++ [c]) }, []) := by
  unfold appendValue
  simp [h5, h6]

/-- In STATE_INSTRING with a pending escape, the backslash and the current
character are both appended, undecoded, and the flag is cleared. -/
theorem jsonEat_instring_escaped (s : ParserState) (c : Char)
    (h1 : s.state = STATE_INSTRING) (h2 : s.isSlash = true)
    (h5 : ¬(c = nulChar)) (h6 : (valueRow s).length + 2 ≤ MAXVALUE)
    (h7 : s.stack < s.values.length) :
    jsonEat s c =
      ({ setRing s (logRing (ringOf s) c) with
          isSlash := false,
          values := s.values.set s.stack (valueRow s ++ ['\\', c]) }, []) := by
  have hb : ¬(('\\' : Char) = nulChar) := by decide
  have hlen1 : (valueRow s).length < MAXVALUE := by omega
  have a1 : appendValue
      ({ setRing s (logRing (ringOf s) c) with isSlash := false } : ParserState)
      '\\' =
      ({ setRing s (logRing (ringOf s) c) with
          isSlash := false,
          values := s.values.set s.stack (valueRow s ++ ['\\']) }, []) :=
    appendValue_ok _ _ hb hlen1
  have hrow1 : valueRow
      ({ setRing s (logRing (ringOf s) c) with
          isSlash := false,
          values := s.values.set s.stack (valueRow s ++ ['\\']) } : ParserState) =
      valueRow s ++ ['\\'] := by
    unfold valueRow
    exact getD_set_self _ _ _ h7
  have hlen2 : (valueRow
      ({ setRing s (logRing (ringOf s) c) with
          isSlash := false,
          values := s.values.set s.stack (valueRow s ++ ['\\']) } : ParserState)).length <
      MAXVALUE := by
    rw [hrow1]
    simp only [List.length_append, List.length_cons, List.length_nil]
    omega
  have a2 : appendValue
      ({ setRing s (logRing (ringOf s) c) with
          isSlash := false,
          values := s.values.set s.stack (valueRow s ++ ['\\']) } : ParserState) c =
      ({ setRing s (logRing (ringOf s) c) with
          isSlash := false,
          values := s.values.set s.stack (valueRow s ++ ['\\', c]) }, []) := by
    rw [appendValue_ok _ _ h5 hlen2, hrow1]
    simp [List.set_set, setRing_stack]
  have hss : (setRing s (logRing (ringOf s) c)).state = STATE_INSTRING := by
    rw [setRing_state, h1]
  have hsl : (setRing s (logRing (ringOf s) c)).isSlash = true := by
    rw [setRing_isSlash, h2]
  have n0 : ¬((setRing s (logRing (ringOf s) c)).state = STATE_NONE) := by
    rw [hss]; decide
  have n1 : ¬((setRing s (logRing (ringOf s) c)).state = STATE_INOBJECT) := by
    rw [hss]; decide
  have n2 : ¬((setRing s (logRing (ringOf s) c)).state = STATE_TONAME) := by
    rw [hss]; decide
  have n3 : ¬((setRing s (logRing (ringOf s) c)).state = STATE_INNAME) := by
    rw [hss]; decide
  have n4 : ¬((setRing s (logRing (ringOf s) c)).state = STATE_TOCOLUMN) := by
    rw [hss]; decide
  have n5 : ¬((setRing s (logRing (ringOf s) c)).state = STATE_TOVALUE) := by
    rw [hss]; decide
  have nsl : ¬((!(setRing s (logRing (ringOf s) c)).isSlash &&
      (c = '\\' : Bool)) = true) := by
    rw [hsl]; simp
  have hs : eatStep (setRing s (logRing (ringOf s) c)) c =
      ({ setRing s (logRing (ringOf s) c) with
          isSlash := false,
          values := s.values.set s.stack (valueRow s ++ ['\\', c]) }, [], false) := by
    unfold eatStep
    rw [if_neg n0, if_neg n1, if_neg n2, if_neg n3, if_neg n4, if_neg n5,
      if_pos hss, if_neg nsl, if_pos hsl]
    simp only [a1, a2, List.nil_append]
  rw [jsonEat_step s c (by rw [hs])]
  rw [hs]

/-- In STATE_INSTRING with no pending escape, a quote fires the
string-value callback with the current name and value rows and moves to
STATE_OUTVALUE. -/
theorem jsonEat_instring_close (s : ParserState)
    (h1 : s.state = STATE_INSTRING) (h2 : s.isSlash = false) :
    jsonEat s '"' =
      ({ setRing s (logRing (ringOf s) '"') with state := STATE_OUTVALUE },
       [Event.stringValue (nameRow s) (valueRow s)]) := by
  have hs : eatStep (setRing s (logRing (ringOf s) '"')) '"' =
      ({ setRing s (logRing (ringOf s) '"') with state := STATE_OUTVALUE },
       [Event.stringValue (nameRow s) (valueRow s)], false) := by
    simp [eatStep, setRing_state, setRing_isSlash, h1, h2, STATE_NONE,
      STATE_INOBJECT, STATE_TONAME, STATE_INNAME, STATE_TOCOLUMN, STATE_TOVALUE,
      STATE_INSTRING, STATE_OUTVALUE, setState, nameRow_setRing, valueRow_setRing,
      STATE_INARRAY]
  rw [jsonEat_step s '"' (by rw [hs])]
  rw [hs]

/-- In STATE_OUTVALUE at depth two over an object over the idle state, a
closing brace pops the after-value level, fires object-complete with the
row-zero name, pops again to idle, and clears row zero. -/
theorem jsonEat_outvalue_close (s : ParserState)
    (h1 : s.state = STATE_OUTVALUE) (h2 : s.stateIndex = 2)
    (h3 : s.states.getD 1 0 = STATE_INOBJECT)
    (h4 : s.states.getD 0 0 = STATE_NONE)
    (h5 : s.stack = 1) :
    jsonEat s '}' =
      ({ setRing s (logRing (ringOf s) '}') with
          stateIndex := 0, state := STATE_NONE, stack := 0, allowComma := true,
          names := s.names.set 0 [] },
       [Event.objectComplete (s.names.getD 0 [])]) := by
  have h3x : s.states[1]?.getD 0 = 1 := by
    have := h3
    simp [STATE_INOBJECT, List.getD] at this
    simpa using this
  have h4x : s.states[0]?.getD 0 = 0 := by
    have := h4
    simp [STATE_NONE, List.getD] at this
    simpa using this
  have up1 : eatStep (setRing s (logRing (ringOf s) '}')) '}' =
      ({ setRing s (logRing (ringOf s) '}') with
          stateIndex := 1, state := STATE_INOBJECT, stack := 0,
          allowComma := true }, [], true) := by
    simp [eatStep, setRing_state, setRing_stateIndex, setRing_stack,
      setRing_states, h1, h2, h3x, h5, STATE_NONE, STATE_INOBJECT, STATE_TONAME,
      STATE_INNAME, STATE_TOCOLUMN, STATE_TOVALUE, STATE_INSTRING, STATE_INNUM,
      STATE_INARRAY, STATE_OUTVALUE, upState, isWhiteSpace, List.getD]
  have up2 : eatStep
      ({ setRing s (logRing (ringOf s) '}') with
          stateIndex := 1, state := STATE_INOBJECT, stack := 0,
          allowComma := true } : ParserState) '}' =
      ({ setRing s (logRing (ringOf s) '}') with
          stateIndex := 0, state := STATE_NONE, stack := 0,
          allowComma := true, names := s.names.set 0 [] },
       [Event.objectComplete (s.names.getD 0 [])], false) := by
    simp [eatStep, setRing_names, setRing_states, setRing_stack, h4x, STATE_NONE,
      STATE_INOBJECT, STATE_TONAME, STATE_INNAME, STATE_TOCOLUMN, STATE_TOVALUE,
      STATE_INSTRING, STATE_INNUM, STATE_INARRAY, STATE_OUTVALUE, upState,
      nameRow, List.getD]
  rw [jsonEat_eq s '}']
  unfold jsonEatNoLog
  rw [show (setRing s (logRing (ringOf s) '}')).stateIndex = 2 from
    by rw [setRing_stateIndex, h2]]
  show eatFuel 8 (setRing s (logRing (ringOf s) '}')) '}' = _
  rw [show (8 : Nat) = 7 + 1 from by omega,
    eatFuel_succ_again 7 _ '}' (by rw [up1]), up1]
  rw [show (7 : Nat) = 6 + 1 from by omega,
    eatFuel_succ_step 6 _ '}' (by rw [up2]), up2]
  simp

/-- Feeding a list of valid name characters in STATE_INNAME appends them to
the current name row, fires no callback and leaves all control fields, the
other rows and the value buffers unchanged. -/
theorem feed_inname (nm : List Char) : ∀ (s : ParserState),
    s.state = STATE_INNAME →
    s.stack < s.names.length →
    (∀ c ∈ nm, isValidNameChar c = true) →
    (nameRow s).length + nm.length ≤ MAXNAME →
    (feedList s nm).2 = [] ∧
    coreOf (feedList s nm).1 = coreOf s ∧
    (feedList s nm).1.values = s.values ∧
    (feedList s nm).1.names.length = s.names.length ∧
    nameRow (feedList s nm).1 = nameRow s ++ nm ∧
    (∀ j, j ≠ s.stack → (feedList s nm).1.names.getD j [] = s.names.getD j []) := by
  induction nm with
  | nil =>
    intro s _ _ _ _
    refine ⟨rfl, rfl, rfl, rfl, by simp [feedList], fun j _ => rfl⟩
  | cons c cs ih =>
    intro s h1 h2 h3 h4
    have hv : isValidNameChar c = true := h3 c (by simp)
    have hlen : (nameRow s).length < MAXNAME := by
      have := h4
      simp only [List.length_cons] at this
      omega
    obtain ⟨p1, p2, p3, p4, p5, p6, p7, p8, p9⟩ := jsonEat_inname_valid s c h1 hv hlen
    have hfeed : feedList s (c :: cs) =
        ((feedList (jsonEat s c).1 cs).1,
         (jsonEat s c).2 ++ (feedList (jsonEat s c).1 cs).2) := rfl
    have hrow2 : nameRow (jsonEat s c).1 = nameRow s ++ [c] := by
      unfold nameRow
      rw [p7, p9]
      exact getD_set_self s.names s.stack _ h2
    have hlen2 : (jsonEat s c).1.names.length = s.names.length := by
      rw [p9]; simp
    have hih := ih (jsonEat s c).1
      (by rw [p2]; exact h1)
      (by rw [hlen2, p7]; exact h2)
      (fun d hd => h3 d (by simp [hd]))
      (by rw [hrow2]
          simp only [List.length_append, List.length_cons, List.length_nil] at h4 ⊢
          omega)
    obtain ⟨e1, e2, e3, e4, e5, e6⟩ := hih
    rw [hfeed]
    refine ⟨?_, ?_, ?_, ?_, ?_, ?_⟩
    · rw [p1, e1]; rfl
    · exact e2.trans (by unfold coreOf; rw [p2, p3, p4, p5, p6, p7])
    · exact e3.trans p8
    · exact e4.trans hlen2
    · rw [e5, hrow2]
      simp
    · intro j hj
      have := e6 j (by rw [p7]; exact hj)
      refine this.trans ?_
      rw [p9]
      exact getD_set_other _ _ _ _ (fun h => hj h.symm)

/-- One step of feedList. -/
theorem feedList_cons (s : ParserState) (c : Char) (cs : List Char) :
    feedList s (c :: cs) =
      ((feedList (jsonEat s c).1 cs).1,
       (jsonEat s c).2 ++ (feedList (jsonEat s c).1 cs).2) := rfl

/-- Feeding an opening brace and a quote to a fresh slot fires object-start
of the empty name and reaches the innameStart state. -/
theorem feed_prefix_inname :
    feedList initState ("\x7b\"".toList) = (innameStart, [Event.objectStart []]) := by
  decide

/-- Feeding the six-character string-value prefix to a fresh slot fires
object-start of the empty name and reaches the instringStart state. -/
theorem feed_prefix_instring :
    feedList initState ("\x7b\"a\":\"".toList) =
      (instringStart, [Event.objectStart []]) := by
  decide

/-- In STATE_INNAME a valid name character at the length bound raises the
name-too-long error. -/
theorem eatStep_inname_toolong (s : ParserState) (c : Char)
    (h1 : s.state = STATE_INNAME) (hv : isValidNameChar c = true)
    (hlen : ¬((nameRow s).length < MAXNAME)) :
    eatStep s c =
      ((jsonError s ERR_NAMETOOLONG).1, (jsonError s ERR_NAMETOOLONG).2, false) := by
  have hq := validNameChar_ne_quote hv
  simp [eatStep, h1, STATE_NONE, STATE_INOBJECT, STATE_TONAME, STATE_INNAME,
    hq, hv, appendName, hlen]

/-- jsonEat in STATE_INNAME at the length bound: the name-too-long error
fires and the slot is reset. -/
theorem jsonEat_inname_toolong (s : ParserState) (c : Char)
    (h1 : s.state = STATE_INNAME) (hv : isValidNameChar c = true)
    (hlen : ¬((nameRow s).length < MAXNAME)) :
    jsonEat s c =
      (jsonReset (setRing s (logRing (ringOf s) c)),
       [Event.error ERR_NAMETOOLONG (errMsg ERR_NAMETOOLONG)
         (cString (errWindow (setRing s (logRing (ringOf s) c))))]) := by
  have hs := eatStep_inname_toolong (setRing s (logRing (ringOf s) c)) c h1 hv hlen
  rw [jsonEat_step s c (by rw [hs])]
  rw [hs]
  rfl

/-- Feeding an opening brace, a quote and any MAXNAME + 1 valid name
characters to a fresh slot: object-start fires, then the name-too-long
error, and the slot ends reset. -/
theorem toolong_run (nm : List Char)
    (hall : ∀ c ∈ nm, isValidNameChar c = true)
    (hlen : nm.length = MAXNAME + 1) :
    sigs (feedList initState ("\x7b\"".toList ++ nm)).2 =
      [.objS [], .err ERR_NAMETOOLONG] ∧
    (feedList initState ("\x7b\"".toList ++ nm)).1.state = STATE_NONE ∧
    (feedList initState ("\x7b\"".toList ++ nm)).1.stateIndex = 0 ∧
    (feedList initState ("\x7b\"".toList ++ nm)).1.stack = 0 ∧
    (feedList initState ("\x7b\"".toList ++ nm)).1.allowComma = false ∧
    (feedList initState ("\x7b\"".toList ++ nm)).1.isSlash = false ∧
    nameRow (feedList initState ("\x7b\"".toList ++ nm)).1 = [] ∧
    valueRow (feedList initState ("\x7b\"".toList ++ nm)).1 = [] := by
  have hne : nm ≠ [] := by
    intro h
    rw [h] at hlen
    simp [MAXNAME] at hlen
  obtain ⟨t, d, hnm⟩ : ∃ t d, nm = t ++ [d] :=
    ⟨nm.dropLast, nm.getLast hne, (List.dropLast_append_getLast hne).symm⟩
  subst hnm
  have hT : t.length = 30 := by
    simp only [List.length_append, List.length_cons, List.length_nil, MAXNAME] at hlen
    omega
  have hdv : isValidNameChar d = true := hall d (by simp)
  have htv : ∀ c ∈ t, isValidNameChar c = true := fun c hc => hall c (by simp [hc])
  rw [← List.append_assoc]
  rw [feedList_append initState ("\x7b\"".toList ++ t) [d]]
  rw [feedList_append initState ("\x7b\"".toList) t]
  rw [feed_prefix_inname]
  obtain ⟨e1, e2, e3, e4, e5, e6⟩ := feed_inname t innameStart rfl (by decide) htv
    (by rw [show nameRow innameStart = [] from rfl, hT]; simp [MAXNAME])
  have hsmState : (feedList innameStart t).1.state = STATE_INNAME := by
    have := congrArg (fun q => q.1) e2
    simpa [coreOf] using this
  have hrow : nameRow (feedList innameStart t).1 = t := by
    rw [e5, show nameRow innameStart = [] from rfl]
    simp
  have hnl : ¬((nameRow (feedList innameStart t).1).length < MAXNAME) := by
    rw [hrow, hT]
    simp [MAXNAME]
  have hlast := jsonEat_inname_toolong (feedList innameStart t).1 d hsmState hdv hnl
  rw [feedList_cons, hlast]
  refine ⟨?_, rfl, rfl, rfl, rfl, rfl, ?_, ?_⟩
  · simp [sigs, sig, e1, feedList]
  · show ((jsonReset _).names).getD ((jsonReset _).stack) [] = []
    exact getD_set_zero_nil _
  · show ((jsonReset _).values).getD ((jsonReset _).stack) [] = []
    exact getD_set_zero_nil _

set_option maxRecDepth 10000 in
/-- C3.  At the concrete too-long-name document the callback sequence is
object-start, then three errors (name too long, then illegal-name and
assignment errors as the remnants of the aborted field are reparsed from
idle), then the string-value of the second field parsed as a fresh
top-level name/value pair; object-complete never fires even though the
document's only flaw is the long name, and immediately after the length
error the slot is fully reset: the in-progress document parse is aborted,
not just the current field. -/
theorem C3_counterexample :
    sigs (feedList initState doc3).2 =
      [.objS [], .err ERR_NAMETOOLONG, .err ERR_PARSE_ILLNAME,
       .err ERR_PARSE_ASSIGNMENT, .str ['b'] ['z']] ∧
    Sig.objC [] ∉ sigs (feedList initState doc3).2 ∧
    (feedList initState doc3pre).1.state = STATE_NONE ∧
    (feedList initState doc3pre).1.stateIndex = 0 ∧
    (feedList initState doc3pre).1.stack = 0 ∧
    errCodes (feedList initState doc3pre).2 = [ERR_NAMETOOLONG] := by
  decide

/-- C3 amended: when appending would make a field name exceed MAXNAME, the
name-too-long error is raised and the whole slot is reset to the idle
state with empty stacks, buffers and flags: the in-progress document parse
is aborted, and the remaining characters are parsed as a fresh top-level
stream rather than as fields of the same document. -/
theorem C3_thm (nm : List Char)
    (hall : ∀ c ∈ nm, isValidNameChar c = true)
    (hlen : nm.length = MAXNAME + 1) :
    sigs (feedList initState ("\x7b\"".toList ++ nm)).2 =
      [.objS [], .err ERR_NAMETOOLONG] ∧
    (feedList initState ("\x7b\"".toList ++ nm)).1.state = STATE_NONE ∧
    (feedList initState ("\x7b\"".toList ++ nm)).1.stateIndex = 0 ∧
    (feedList initState ("\x7b\"".toList ++ nm)).1.stack = 0 ∧
    (feedList initState ("\x7b\"".toList ++ nm)).1.allowComma = false ∧
    (feedList initState ("\x7b\"".toList ++ nm)).1.isSlash = false ∧
    nameRow (feedList initState ("\x7b\"".toList ++ nm)).1 = [] ∧
    valueRow (feedList initState ("\x7b\"".toList ++ nm)).1 = [] :=
  toolong_run nm hall hlen

/-- C3 witness: thirty-one letters b exceed MAXNAME by one; the error fires
and the slot ends reset. -/
theorem C3_witness :
    sigs (feedList initState ("\x7b\"".toList ++ List.replicate 31 'b')).2 =
      [.objS [], .err ERR_NAMETOOLONG] ∧
    (feedList initState ("\x7b\"".toList ++ List.replicate 31 'b')).1.state =
      STATE_NONE := by
  have h := C3_thm (List.replicate 31 'b') (by decide) (by decide)
  exact ⟨h.1, h.2.1⟩

/-- jsonEat_inname_close on an explicit slot record. -/
theorem jsonEat_mk_inname_close (st : List Nat) (si : Nat) (ac sl : Bool)
    (k : Nat) (ns vs : List (List Char)) (eb : List Char) (ei n : Nat) :
    jsonEat ⟨STATE_INNAME, st, si, ac, sl, k, ns, vs, eb, ei, n⟩ '\"' =
      (⟨STATE_TOCOLUMN, st, si, ac, sl, k, ns, vs,
        (logRing (eb, ei, n) '\"').1, (logRing (eb, ei, n) '\"').2.1,
        (logRing (eb, ei, n) '\"').2.2⟩, []) :=
  jsonEat_inname_close _ rfl

/-- jsonEat_tocolumn_colon on an explicit slot record. -/
theorem jsonEat_mk_tocolumn_colon (st : List Nat) (si : Nat) (ac sl : Bool)
    (k : Nat) (ns vs : List (List Char)) (eb : List Char) (ei n : Nat) :
    jsonEat ⟨STATE_TOCOLUMN, st, si, ac, sl, k, ns, vs, eb, ei, n⟩ ':' =
      (⟨STATE_TOVALUE, st, si, ac, sl, k, ns, vs.set k [],
        (logRing (eb, ei, n) ':').1, (logRing (eb, ei, n) ':').2.1,
        (logRing (eb, ei, n) ':').2.2⟩, []) :=
  jsonEat_tocolumn_colon _ rfl

/-- jsonEat_tovalue_quote on an explicit slot record. -/
theorem jsonEat_mk_tovalue_quote (st : List Nat) (si : Nat) (ac sl : Bool)
    (k : Nat) (ns vs : List (List Char)) (eb : List Char) (ei n : Nat) :
    jsonEat ⟨STATE_TOVALUE, st, si, ac, sl, k, ns, vs, eb, ei, n⟩ '\"' =
      (⟨STATE_INSTRING, st, si, ac, false, k, ns, vs,
        (logRing (eb, ei, n) '\"').1, (logRing (eb, ei, n) '\"').2.1,
        (logRing (eb, ei, n) '\"').2.2⟩, []) :=
  jsonEat_tovalue_quote _ rfl

/-- jsonEat_instring_char on an explicit slot record. -/
theorem jsonEat_mk_instring_char (st : List Nat) (si : Nat) (ac : Bool)
    (k : Nat) (ns vs : List (List Char)) (eb : List Char) (ei n : Nat)
    (c : Char) (h3 : ¬(c = '\\')) (h4 : ¬(c = '\"')) (h5 : ¬(c = nulChar))
    (h6 : (vs.getD k []).length < MAXVALUE) :
    jsonEat ⟨STATE_INSTRING, st, si, ac, false, k, ns, vs, eb, ei, n⟩ c =
      (⟨STATE_INSTRING, st, si, ac, false, k, ns, vs.set k (vs.getD k [] ++ [c]),
        (logRing (eb, ei, n) c).1, (logRing (eb, ei, n) c).2.1,
        (logRing (eb, ei, n) c).2.2⟩, []) :=
  jsonEat_instring_char _ c rfl rfl h3 h4 h5 h6

/-- jsonEat_instring_close on an explicit slot record. -/
theorem jsonEat_mk_instring_close (st : List Nat) (si : Nat) (ac : Bool)
    (k : Nat) (ns vs : List (List Char)) (eb : List Char) (ei n : Nat) :
    jsonEat ⟨STATE_INSTRING, st, si, ac, false, k, ns, vs, eb, ei, n⟩ '\"' =
      (⟨STATE_OUTVALUE, st, si, ac, false, k, ns, vs,
        (logRing (eb, ei, n) '\"').1, (logRing (eb, ei, n) '\"').2.1,
        (logRing (eb, ei, n) '\"').2.2⟩,
       [Event.stringValue (ns.getD k []) (vs.getD k [])]) :=
  jsonEat_instring_close _ rfl rfl

/-- jsonEat_outvalue_close on an explicit slot record at depth two over an
object over the idle state. -/
theorem jsonEat_mk_outvalue_close (st : List Nat) (ac sl : Bool)
    (ns vs : List (List Char)) (eb : List Char) (ei n : Nat)
    (h3 : st.getD 1 0 = STATE_INOBJECT) (h4 : st.getD 0 0 = STATE_NONE) :
    jsonEat ⟨STATE_OUTVALUE, st, 2, ac, sl, 1, ns, vs, eb, ei, n⟩ '\x7d' =
      (⟨STATE_NONE, st, 0, true, sl, 0, ns.set 0 [], vs,
        (logRing (eb, ei, n) '\x7d').1, (logRing (eb, ei, n) '\x7d').2.1,
        (logRing (eb, ei, n) '\x7d').2.2⟩,
       [Event.objectComplete (ns.getD 0 [])]) :=
  jsonEat_outvalue_close _ rfl rfl h3 h4 rfl

/-- C5.  A field name of exactly MAXNAME valid characters parses
successfully with no error callback (here with a one-character string
value: object-start, string-value, object-complete fire and nothing else),
while a name of MAXNAME + 1 characters triggers the name-too-long error
and leaves the slot reset to the idle state. -/
theorem C5_thm (nm30 nm31 : List Char)
    (h30v : ∀ c ∈ nm30, isValidNameChar c = true)
    (h31v : ∀ c ∈ nm31, isValidNameChar c = true)
    (h30l : nm30.length = MAXNAME)
    (h31l : nm31.length = MAXNAME + 1) :
    (feedList initState
        ("\x7b\"".toList ++ nm30 ++ ['\"', ':', '\"', 'v', '\"', '\x7d'])).2 =
      [.objectStart [], .stringValue nm30 ['v'], .objectComplete []] ∧
    sigs (feedList initState ("\x7b\"".toList ++ nm31)).2 =
      [.objS [], .err ERR_NAMETOOLONG] ∧
    (feedList initState ("\x7b\"".toList ++ nm31)).1.state = STATE_NONE ∧
    (feedList initState ("\x7b\"".toList ++ nm31)).1.stateIndex = 0 ∧
    (feedList initState ("\x7b\"".toList ++ nm31)).1.stack = 0 := by
  obtain ⟨t1, t2, t3, t4, _⟩ := toolong_run nm31 h31v h31l
  refine ⟨?_, t1, t2, t3, t4⟩
  rw [feedList_append initState ("\x7b\"".toList ++ nm30)
    ['\"', ':', '\"', 'v', '\"', '\x7d']]
  rw [feedList_append initState ("\x7b\"".toList) nm30]
  rw [feed_prefix_inname]
  obtain ⟨e1, e2, e3, e4, e5, e6⟩ := feed_inname nm30 innameStart rfl (by decide)
    h30v (by rw [show nameRow innameStart = [] from rfl, h30l]; simp)
  have hstate : (feedList innameStart nm30).1.state = STATE_INNAME :=
    congrArg (fun q => q.1) e2
  have hsi : (feedList innameStart nm30).1.stateIndex = 2 :=
    congrArg (fun q => q.2.2.1) e2
  have hac : (feedList innameStart nm30).1.allowComma = false :=
    congrArg (fun q => q.2.2.2.1) e2
  have hsl : (feedList innameStart nm30).1.isSlash = false :=
    congrArg (fun q => q.2.2.2.2.1) e2
  have hstack : (feedList innameStart nm30).1.stack = 1 :=
    congrArg (fun q => q.2.2.2.2.2) e2
  have hstates : (feedList innameStart nm30).1.states = [0, 1, 0, 0, 0, 0, 0, 0, 0, 0] :=
    congrArg (fun q => q.2.1) e2
  have hvals : (feedList innameStart nm30).1.values = List.replicate MAXSTACK [] := e3
  have hrow : nameRow (feedList innameStart nm30).1 = nm30 := by
    rw [e5, show nameRow innameStart = [] from rfl]
    simp
  have hns0 : (feedList innameStart nm30).1.names.getD 0 [] = [] :=
    (e6 0 (by decide)).trans (by decide)
  have hrowg : (feedList innameStart nm30).1.names.getD 1 [] = nm30 := by
    have : (feedList innameStart nm30).1.names.getD
        ((feedList innameStart nm30).1.stack) [] = nm30 := hrow
    rw [hstack] at this
    exact this
  have hsm : (feedList innameStart nm30).1 =
      ⟨STATE_INNAME, (feedList innameStart nm30).1.states, 2, false, false, 1,
       (feedList innameStart nm30).1.names, (feedList innameStart nm30).1.values,
       (feedList innameStart nm30).1.errbuf, (feedList innameStart nm30).1.errbufIndex,
       (feedList innameStart nm30).1.numchars⟩ := by
    have h0 : (feedList innameStart nm30).1 =
        ⟨(feedList innameStart nm30).1.state, (feedList innameStart nm30).1.states,
         (feedList innameStart nm30).1.stateIndex, (feedList innameStart nm30).1.allowComma,
         (feedList innameStart nm30).1.isSlash, (feedList innameStart nm30).1.stack,
         (feedList innameStart nm30).1.names, (feedList innameStart nm30).1.values,
         (feedList innameStart nm30).1.errbuf, (feedList innameStart nm30).1.errbufIndex,
         (feedList innameStart nm30).1.numchars⟩ := rfl
    rw [hstate, hsi, hac, hsl, hstack] at h0
    exact h0
  rw [e1, hsm]
  rw [feedList_cons, jsonEat_mk_inname_close]
  rw [feedList_cons, jsonEat_mk_tocolumn_colon]
  rw [feedList_cons, jsonEat_mk_tovalue_quote]
  rw [feedList_cons, jsonEat_mk_instring_char _ _ _ _ _ _ _ _ _ 'v'
    (by decide) (by decide) (by decide) ?hlen]
  case hlen =>
    rw [getD_set_self _ _ _ (by rw [hvals]; decide)]
    decide
  rw [feedList_cons, jsonEat_mk_instring_close]
  rw [feedList_cons, jsonEat_mk_outvalue_close _ _ _ _ _ _ _ _ ?h3 ?h4]
  case h3 => rw [hstates]; decide
  case h4 => rw [hstates]; decide
  show [Event.objectStart []] ++ ([] ++ ([] ++ ([] ++ ([] ++
    ([Event.stringValue _ _] ++ ([Event.objectComplete _] ++
      (feedList _ []).2)))))) = _
  rw [getD_set_self _ _ _ (by rw [hvals]; decide)]
  simp only [List.nil_append, List.append_nil, feedList]
  rw [hrowg, hns0]
  rw [getD_set_self _ _ _ (by rw [hvals]; decide)]
  rfl

/-- C5 witness: thirty letters a parse with the three callbacks and no
error; thirty-one letters b raise the length error and reset the slot. -/
theorem C5_witness :
    (feedList initState
        ("\x7b\"".toList ++ List.replicate 30 'a' ++
          ['\"', ':', '\"', 'v', '\"', '\x7d'])).2 =
      [.objectStart [], .stringValue (List.replicate 30 'a') ['v'],
       .objectComplete []] ∧
    sigs (feedList initState ("\x7b\"".toList ++ List.replicate 31 'c')).2 =
      [.objS [], .err ERR_NAMETOOLONG] ∧
    (feedList initState ("\x7b\"".toList ++ List.replicate 31 'c')).1.state =
      STATE_NONE := by
  have h := C5_thm (List.replicate 30 'a') (List.replicate 31 'c')
    (by decide) (by decide) (by decide) (by decide)
  exact ⟨h.1, h.2.1, h.2.2.1⟩

/-- Feeding a well-escaped string body in STATE_INSTRING appends its
characters verbatim to the current value row (escape pairs included,
undecoded), fires no callback, and leaves the control fields and name
buffers unchanged. -/
theorem feed_instring (v : List Char) : ∀ (s : ParserState),
    s.state = STATE_INSTRING →
    s.isSlash = false →
    s.stack < s.values.length →
    escOk v = true →
    (valueRow s).length + v.length ≤ MAXVALUE →
    (feedList s v).2 = [] ∧
    coreOf (feedList s v).1 = coreOf s ∧
    (feedList s v).1.names = s.names ∧
    (feedList s v).1.values.length = s.values.length ∧
    valueRow (feedList s v).1 = valueRow s ++ v := by
  induction v using escOk.induct with
  | case1 =>
    intro s _ _ _ _ _
    exact ⟨rfl, rfl, rfl, rfl, by simp [feedList]⟩
  | case2 c r ih =>
    intro s h1 h2 h3 h4 h5
    have h4x : (c = '\\' ∨ c = '\"') ∧ escOk r = true := by
      simp [escOk] at h4
      tauto
    have hcnul : ¬(c = nulChar) := by
      rcases h4x.1 with h | h <;> rw [h] <;> decide
    have hlen2 : (valueRow s).length + 2 ≤ MAXVALUE := by
      simp only [List.length_cons] at h5
      omega
    have hstep1 := jsonEat_instring_backslash s h1 h2
    set S1 : ParserState :=
      { setRing s (logRing (ringOf s) '\\') with isSlash := true } with hS1
    have hstep2 := jsonEat_instring_escaped S1 c h1 rfl hcnul hlen2 h3
    set S2 : ParserState :=
      { setRing S1 (logRing (ringOf S1) c) with
        isSlash := false,
        values := S1.values.set S1.stack (valueRow S1 ++ ['\\', c]) } with hS2
    have hrS2 : valueRow S2 = valueRow s ++ ['\\', c] := by
      show (s.values.set s.stack (valueRow s ++ ['\\', c])).getD s.stack [] = _
      exact getD_set_self _ _ _ h3
    obtain ⟨e1, e2, e3, e4, e5⟩ := ih S2 h1 rfl
      (by show s.stack < (s.values.set s.stack (valueRow s ++ ['\\', c])).length
          simpa using h3)
      h4x.2
      (by rw [hrS2]
          simp only [List.length_append, List.length_cons, List.length_nil] at h5 ⊢
          omega)
    rw [feedList_cons, hstep1, feedList_cons, hstep2]
    refine ⟨by simpa using e1, ?_, e3, ?_, ?_⟩
    · refine e2.trans ?_
      rw [show coreOf s = (s.state, s.states, s.stateIndex, s.allowComma, false, s.stack)
        from by unfold coreOf; rw [h2]]
      exact rfl
    · refine e4.trans ?_
      show (s.values.set s.stack (valueRow s ++ ['\\', c])).length = s.values.length
      simp
    · rw [e5, hrS2]
      simp
  | case3 =>
    intro s _ _ _ h4 _
    simp [escOk] at h4
  | case4 c r hne1 hne2 ih =>
    intro s h1 h2 h3 h4 h5
    have hcb : ¬(c = '\\') := fun h => by
      cases r with
      | nil => exact hne2 h rfl
      | cons x xs => exact hne1 x xs h rfl
    have h4x : ¬(c = '\"') ∧ ¬(c = nulChar) ∧ escOk r = true := by
      simp [escOk, hcb] at h4
      tauto
    have hlen1 : (valueRow s).length < MAXVALUE := by
      simp only [List.length_cons] at h5
      omega
    have hstep := jsonEat_instring_char s c h1 h2 hcb h4x.1 h4x.2.1 hlen1
    set S2 : ParserState :=
      { setRing s (logRing (ringOf s) c) with
        values := s.values.set s.stack (valueRow s ++ [c]) } with hS2
    have hrS2 : valueRow S2 = valueRow s ++ [c] := by
      show (s.values.set s.stack (valueRow s ++ [c])).getD s.stack [] = _
      exact getD_set_self _ _ _ h3
    obtain ⟨e1, e2, e3, e4, e5⟩ := ih S2 h1 h2
      (by show s.stack < (s.values.set s.stack (valueRow s ++ [c])).length
          simpa using h3)
      h4x.2.2
      (by rw [hrS2]
          simp only [List.length_append, List.length_cons, List.length_nil] at h5 ⊢
          omega)
    rw [feedList_cons, hstep]
    refine ⟨by simpa using e1, e2, e3, ?_, ?_⟩
    · refine e4.trans ?_
      show (s.values.set s.stack (valueRow s ++ [c])).length = s.values.length
      simp
    · rw [e5, hrS2]
      simp

/-- C6.  For every string-value body whose escape sequences are only
backslash-quote and backslash-backslash (and which fits the value buffer),
the delivered value reproduces the body verbatim, escape pairs undecoded:
feeding the document open-brace quote a quote colon quote, then the body,
then quote close-brace produces exactly object-start, string-value of name
a with the body unchanged, and object-complete. -/
theorem C6_thm (v : List Char) (hesc : escOk v = true)
    (hlen : v.length ≤ MAXVALUE) :
    (feedList initState ("\x7b\"a\":\"".toList ++ v ++ ['\"', '\x7d'])).2 =
      [.objectStart [], .stringValue ['a'] v, .objectComplete []] := by
  rw [feedList_append initState ("\x7b\"a\":\"".toList ++ v) ['\"', '\x7d']]
  rw [feedList_append initState ("\x7b\"a\":\"".toList) v]
  rw [feed_prefix_instring]
  obtain ⟨e1, e2, e3, e4, e5⟩ := feed_instring v instringStart rfl rfl (by decide)
    hesc (by rw [show valueRow instringStart = [] from rfl]; simpa using hlen)
  have hstate : (feedList instringStart v).1.state = STATE_INSTRING :=
    congrArg (fun q => q.1) e2
  have hstates : (feedList instringStart v).1.states = [0, 1, 0, 0, 0, 0, 0, 0, 0, 0] :=
    congrArg (fun q => q.2.1) e2
  have hsi : (feedList instringStart v).1.stateIndex = 2 :=
    congrArg (fun q => q.2.2.1) e2
  have hac : (feedList instringStart v).1.allowComma = false :=
    congrArg (fun q => q.2.2.2.1) e2
  have hsl : (feedList instringStart v).1.isSlash = false :=
    congrArg (fun q => q.2.2.2.2.1) e2
  have hstack : (feedList instringStart v).1.stack = 1 :=
    congrArg (fun q => q.2.2.2.2.2) e2
  have hnames : (feedList instringStart v).1.names = [[], ['a'], [], [], []] := e3
  have hrowv : valueRow (feedList instringStart v).1 = v := by
    rw [e5, show valueRow instringStart = [] from rfl]
    simp
  have hng : (feedList instringStart v).1.names.getD 1 [] = ['a'] := by
    rw [hnames]
    decide
  have hn0 : (feedList instringStart v).1.names.getD 0 [] = [] := by
    rw [hnames]
    decide
  have hvg : (feedList instringStart v).1.values.getD 1 [] = v := by
    have h0 : (feedList instringStart v).1.values.getD
        ((feedList instringStart v).1.stack) [] = v := hrowv
    rw [hstack] at h0
    exact h0
  have hsm : (feedList instringStart v).1 =
      ⟨STATE_INSTRING, (feedList instringStart v).1.states, 2, false, false, 1,
       (feedList instringStart v).1.names, (feedList instringStart v).1.values,
       (feedList instringStart v).1.errbuf, (feedList instringStart v).1.errbufIndex,
       (feedList instringStart v).1.numchars⟩ := by
    have h0 : (feedList instringStart v).1 =
        ⟨(feedList instringStart v).1.state, (feedList instringStart v).1.states,
         (feedList instringStart v).1.stateIndex, (feedList instringStart v).1.allowComma,
         (feedList instringStart v).1.isSlash, (feedList instringStart v).1.stack,
         (feedList instringStart v).1.names, (feedList instringStart v).1.values,
         (feedList instringStart v).1.errbuf, (feedList instringStart v).1.errbufIndex,
         (feedList instringStart v).1.numchars⟩ := rfl
    rw [hstate, hsi, hac, hsl, hstack] at h0
    exact h0
  rw [e1, hsm]
  rw [feedList_cons, jsonEat_mk_instring_close]
  rw [feedList_cons, jsonEat_mk_outvalue_close _ _ _ _ _ _ _ _ ?h3 ?h4]
  case h3 => rw [hstates]; decide
  case h4 => rw [hstates]; decide
  rw [hng, hvg, hn0]
  rfl

/-- C6 witness: the scenario body x backslash quote y is delivered
verbatim between object-start and object-complete. -/
theorem C6_witness :
    (feedList initState
        ("\x7b\"a\":\"".toList ++ ['x', '\\', '\"', 'y'] ++ ['\"', '\x7d'])).2 =
      [.objectStart [], .stringValue ['a'] ['x', '\\', '\"', 'y'],
       .objectComplete []] :=
  C6_thm ['x', '\\', '\"', 'y'] (by decide) (by decide)

/-- C8 amended: the comma-allowed flag is cleared by the top-level opening
brace from the idle state and by consuming a comma in an object or array,
but a transition entering a NESTED object or array (an opening brace or
bracket in the expect-value state) leaves the flag unchanged; the flag is
set by a pop that lands in an object or array context; and a comma in an
object or array is accepted exactly while the flag is set, raising the
object- or array-parse error otherwise. -/
theorem C8_thm (s : ParserState) :
    (s.state = STATE_NONE → (jsonEat s '\x7b').1.allowComma = false) ∧
    ((s.state = STATE_INOBJECT ∨ s.state = STATE_INARRAY) →
      s.allowComma = true → s.stateIndex + 1 < MAXSTATES →
      (jsonEat s ',').1.allowComma = false ∧
      (jsonEat s ',').1.state = STATE_TONAME ∧
      errCodes (jsonEat s ',').2 = []) ∧
    (s.state = STATE_INOBJECT → s.allowComma = false →
      errCodes (jsonEat s ',').2 = [ERR_PARSE_OBJECT]) ∧
    (s.state = STATE_INARRAY → s.allowComma = false →
      errCodes (jsonEat s ',').2 = [ERR_PARSE_ARRAY]) ∧
    (s.state = STATE_TOVALUE → s.stack + 1 < MAXSTACK →
      s.stateIndex + 1 < MAXSTATES →
      (jsonEat s '\x7b').1.allowComma = s.allowComma ∧
      (jsonEat s '[').1.allowComma = s.allowComma) ∧
    (s.stateIndex > 0 →
      (s.states.getD (s.stateIndex - 1) 0 = STATE_INOBJECT ∨
       s.states.getD (s.stateIndex - 1) 0 = STATE_INARRAY) →
      s.stack > 0 → (upState s).1.allowComma = true) := by
  refine ⟨?_, ?_, ?_, ?_, ?_, ?_⟩
  · intro h
    rw [jsonEat_step s '\x7b'
      (by simp [eatStep, setRing_state, h, STATE_NONE])]
    simp [eatStep, setRing_state, h, STATE_NONE]
  · intro h hc hsi
    have hsi10 : s.stateIndex + 1 < 10 := hsi
    rcases h with h | h
    · rw [jsonEat_step s ','
        (by simp [eatStep, setRing_state, setRing_allowComma, setRing_stateIndex,
          h, hc, STATE_NONE, STATE_INOBJECT, toState, setState, STATE_TONAME,
          STATE_INNAME, STATE_TOVALUE, STATE_INARRAY, MAXSTATES, hsi10])]
      simp [eatStep, setRing_state, setRing_allowComma, setRing_stateIndex,
        h, hc, STATE_NONE, STATE_INOBJECT, toState, setState, STATE_TONAME,
        STATE_INNAME, STATE_TOVALUE, STATE_INARRAY, MAXSTATES, hsi10, errCodes]
    · rw [jsonEat_step s ','
        (by simp [eatStep, setRing_state, setRing_allowComma, setRing_stateIndex,
          h, hc, STATE_NONE, STATE_INOBJECT, STATE_TONAME, STATE_INNAME,
          STATE_TOCOLUMN, STATE_TOVALUE, STATE_INSTRING, STATE_INNUM,
          STATE_INARRAY, toState, setState, MAXSTATES, hsi10])]
      simp [eatStep, setRing_state, setRing_allowComma, setRing_stateIndex,
        h, hc, STATE_NONE, STATE_INOBJECT, STATE_TONAME, STATE_INNAME,
        STATE_TOCOLUMN, STATE_TOVALUE, STATE_INSTRING, STATE_INNUM,
        STATE_INARRAY, toState, setState, MAXSTATES, hsi10, errCodes]
  · intro h hc
    rw [jsonEat_step s ','
      (by simp [eatStep, setRing_state, setRing_allowComma, h, hc, STATE_NONE,
        STATE_INOBJECT, isWhiteSpace, jsonError])]
    simp [eatStep, setRing_state, setRing_allowComma, h, hc, STATE_NONE,
      STATE_INOBJECT, isWhiteSpace, jsonError, errCodes]
  · intro h hc
    rw [jsonEat_step s ','
      (by simp [eatStep, setRing_state, setRing_allowComma, h, hc, STATE_NONE,
        STATE_INOBJECT, STATE_TONAME, STATE_INNAME, STATE_TOCOLUMN,
        STATE_TOVALUE, STATE_INSTRING, STATE_INNUM, STATE_INARRAY,
        isWhiteSpace, jsonError])]
    simp [eatStep, setRing_state, setRing_allowComma, h, hc, STATE_NONE,
      STATE_INOBJECT, STATE_TONAME, STATE_INNAME, STATE_TOCOLUMN,
      STATE_TOVALUE, STATE_INSTRING, STATE_INNUM, STATE_INARRAY,
      isWhiteSpace, jsonError, errCodes]
  · intro h hstk hsi
    have hstk5 : s.stack + 1 < 5 := hstk
    have hsi10 : s.stateIndex + 1 < 10 := hsi
    constructor
    · rw [jsonEat_step s '\x7b'
        (by simp [eatStep, setRing_state, setRing_stack, setRing_stateIndex,
          h, STATE_NONE, STATE_INOBJECT, STATE_TONAME, STATE_INNAME,
          STATE_TOCOLUMN, STATE_TOVALUE, STATE_INARRAY, isNum, isSign,
          toState, setState, MAXSTACK, MAXSTATES, hstk5, hsi10])]
      simp [eatStep, setRing_state, setRing_stack, setRing_stateIndex,
        h, STATE_NONE, STATE_INOBJECT, STATE_TONAME, STATE_INNAME,
        STATE_TOCOLUMN, STATE_TOVALUE, STATE_INARRAY, isNum, isSign,
        toState, setState, MAXSTACK, MAXSTATES, hstk5, hsi10, setRing_allowComma]
    · rw [jsonEat_step s '['
        (by simp [eatStep, setRing_state, setRing_stack, setRing_stateIndex,
          h, STATE_NONE, STATE_INOBJECT, STATE_TONAME, STATE_INNAME,
          STATE_TOCOLUMN, STATE_TOVALUE, STATE_INARRAY, isNum, isSign,
          toState, setState, MAXSTACK, MAXSTATES, hstk5, hsi10])]
      simp [eatStep, setRing_state, setRing_stack, setRing_stateIndex,
        h, STATE_NONE, STATE_INOBJECT, STATE_TONAME, STATE_INNAME,
        STATE_TOCOLUMN, STATE_TOVALUE, STATE_INARRAY, isNum, isSign,
        toState, setState, MAXSTACK, MAXSTATES, hstk5, hsi10, setRing_allowComma]
  · intro h1 h2 h3
    unfold upState
    rcases h2 with h2 | h2
    · have h2x : s.states[s.stateIndex - 1]?.getD 0 = 1 := by
        have h := h2
        simp [STATE_INOBJECT, List.getD] at h
        simpa using h
      simp [h1, h2x, h3, STATE_INOBJECT, STATE_INARRAY, List.getD]
    · have h2x : s.states[s.stateIndex - 1]?.getD 0 = 8 := by
        have h := h2
        simp [STATE_INARRAY, List.getD] at h
        simpa using h
      simp [h1, h2x, h3, STATE_INOBJECT, STATE_INARRAY, List.getD]

theorem errCtxs_append (a b : List Event) :
    errCtxs (a ++ b) = errCtxs a ++ errCtxs b :=
  List.filterMap_append a b _

/-- A C string with no NUL byte is read back whole. -/
theorem cString_eq_self (l : List Char) (h : ∀ c ∈ l, ¬(c = nulChar)) :
    cString l = l := by
  unfold cString
  induction l with
  | nil => rfl
  | cons c t ih =>
    rw [List.takeWhile_cons_of_pos (by simpa using h c (by simp))]
    rw [ih (fun d hd => h d (by simp [hd]))]

/-- The error window only depends on the ring components. -/
theorem errWindow_congr {a b : ParserState} (h : ringOf a = ringOf b) :
    errWindow a = errWindow b := by
  have h1 : a.errbuf = b.errbuf := congrArg (fun q => q.1) h
  have h2 : a.errbufIndex = b.errbufIndex := congrArg (fun q => q.2.1) h
  have h3 : a.numchars = b.numchars := congrArg (fun q => q.2.2) h
  unfold errWindow
  rw [h1, h2, h3]

theorem ringOk_pure (s s' : ParserState) (evs : List Event)
    (h : ringOf s' = ringOf s) (he : errCtxs evs = []) :
    RingOk s (s', evs) := by
  refine ⟨fun _ => h, fun x hx => ?_⟩
  rw [show errCtxs (s', evs).2 = [] from he] at hx
  simp at hx

theorem ringOk_prepend (s s' : ParserState) (evs0 evs : List Event)
    (h0 : errCtxs evs0 = []) (h : RingOk s (s', evs)) :
    RingOk s (s', evs0 ++ evs) := by
  unfold RingOk at h ⊢
  rw [show errCtxs (s', evs0 ++ evs).2 = errCtxs evs0 ++ errCtxs evs from
    errCtxs_append evs0 evs, h0, List.nil_append]
  exact h

theorem ringOk_comp (s : ParserState) (r1 : ParserState × List Event)
    (r2 : ParserState × List Event)
    (h1 : RingOk s r1) (h2 : RingOk r1.1 r2) :
    RingOk s (r2.1, r1.2 ++ r2.2) := by
  obtain ⟨a1, b1⟩ := h1
  obtain ⟨a2, b2⟩ := h2
  constructor
  · intro hc
    rw [show errCtxs (r2.1, r1.2 ++ r2.2).2 = errCtxs r1.2 ++ errCtxs r2.2 from
      errCtxs_append _ _] at hc
    rcases List.append_eq_nil.mp hc with ⟨hc1, hc2⟩
    exact (a2 hc2).trans (a1 hc1)
  · intro x hx
    rw [show errCtxs (r2.1, r1.2 ++ r2.2).2 = errCtxs r1.2 ++ errCtxs r2.2 from
      errCtxs_append _ _] at hx
    cases hE : errCtxs r1.2 with
    | nil =>
      rw [hE, List.nil_append] at hx
      have hx2 := b2 x hx
      rw [hx2]
      rw [cString, cString, errWindow_congr (a1 hE)]
    | cons y t =>
      rw [hE] at hx
      simp at hx
      exact b1 x (by rw [hE]; simpa using hx)

theorem ringOk_jsonError (s : ParserState) (e : Nat) :
    RingOk s (jsonError s e) := by
  constructor
  · intro hc
    simp [jsonError, errCtxs] at hc
  · intro x hx
    simp [jsonError, errCtxs] at hx
    exact hx.symm

theorem ringOk_appendName (s : ParserState) (c : Char) :
    RingOk s (appendName s c) := by
  unfold appendName
  dsimp only
  split
  · split
    · exact ringOk_pure s _ _ rfl rfl
    · exact ringOk_pure s _ _ rfl rfl
  · exact ringOk_jsonError s ERR_NAMETOOLONG

theorem ringOk_appendValue (s : ParserState) (c : Char) :
    RingOk s (appendValue s c) := by
  unfold appendValue
  dsimp only
  split
  · split
    · exact ringOk_pure s _ _ rfl rfl
    · exact ringOk_pure s _ _ rfl rfl
  · exact ringOk_jsonError s ERR_VALUETOOLONG

theorem ringOk_setState (s : ParserState) (st : Nat) :
    RingOk s (setState s st) := by
  unfold setState
  dsimp only
  split
  · exact ringOk_pure s _ _ rfl rfl
  · split
    · exact ringOk_pure s _ _ rfl rfl
    · split
      · split
        · exact ringOk_pure s _ _ rfl rfl
        · exact ringOk_jsonError _ ERR_INTERNAL
      · exact ringOk_pure s _ _ rfl rfl

theorem ringOk_toState (s : ParserState) (st : Nat) :
    RingOk s (toState s st) := by
  unfold toState
  dsimp only
  split
  · exact ringOk_setState _ st
  · exact ringOk_jsonError _ ERR_INTERNAL

theorem ringOk_upState (s : ParserState) :
    RingOk s (upState s) := by
  unfold upState
  dsimp only
  split
  · split
    · split
      · exact ringOk_pure s _ _ rfl rfl
      · exact ringOk_jsonError _ ERR_INTERNAL
    · split
      · exact ringOk_pure s _ _ rfl rfl
      · exact ringOk_pure s _ _ rfl rfl
  · exact ringOk_jsonError s ERR_INTERNAL

theorem ringOk_ev1 (s : ParserState) (ev : List Event)
    (r : ParserState × List Event)
    (hev : errCtxs ev = []) (h : RingOk s r) : RingOk s (r.1, ev ++ r.2) :=
  ringOk_prepend s r.1 ev r.2 hev h

theorem ringOk_ev_comp (s : ParserState) (ev : List Event)
    (r1 r2 : ParserState × List Event) (s' : ParserState)
    (hev : errCtxs ev = [])
    (h1 : RingOk s r1) (h2 : RingOk r1.1 r2)
    (hs : ringOf s' = ringOf r2.1) :
    RingOk s (s', ev ++ r1.2 ++ r2.2) := by
  rw [List.append_assoc]
  have pp := ringOk_prepend s r2.1 ev (r1.2 ++ r2.2) hev (ringOk_comp s r1 r2 h1 h2)
  exact ⟨fun hc => hs.trans (pp.1 hc), pp.2⟩

theorem ringOk3_of (s a : ParserState) (e : List Event) (b : Bool)
    (h : RingOk s (a, e)) : RingOk3 s (a, e, b) := h

/-- Every single dispatch respects the diagnostic ring: with no error the
ring components are untouched, and the first error it reports carries the
window of the ring as the dispatch found it. -/
theorem ringOk_eatStep (s : ParserState) (c : Char) :
    RingOk3 s (eatStep s c) := by
  unfold eatStep
  by_cases h0 : s.state = STATE_NONE
  · rw [if_pos h0]
    by_cases hA : c = '{'
    · rw [if_pos hA]
      exact ringOk3_of _ _ _ _ (ringOk_ev_comp s [Event.objectStart (nameRow s)]
        (toState s STATE_INOBJECT)
        (toState (toState s STATE_INOBJECT).1 STATE_TONAME) _ rfl
        (ringOk_toState s STATE_INOBJECT) (ringOk_toState _ STATE_TONAME)
        (by rfl))
    · rw [if_neg hA]
      by_cases hB : c = '"'
      · rw [if_pos hB]
        exact ringOk3_of _ _ _ _ (ringOk_toState s STATE_INNAME)
      · rw [if_neg hB]
        exact ringOk3_of _ _ _ _ (ringOk_pure s s [] rfl rfl)
  · rw [if_neg h0]
    by_cases h1 : s.state = STATE_INOBJECT
    · rw [if_pos h1]
      by_cases hA : c = '}'
      · rw [if_pos hA]
        exact ringOk3_of _ _ _ _ (ringOk_ev1 s [Event.objectComplete (nameRow s)]
          (upState s) rfl (ringOk_upState s))
      · rw [if_neg hA]
        by_cases hB : c = '"'
        · rw [if_pos hB]
          exact ringOk3_of _ _ _ _ (ringOk_toState s STATE_INNAME)
        · rw [if_neg hB]
          by_cases hC : (decide (c = ',') && s.allowComma) = true
          · rw [if_pos hC]
            exact ringOk3_of _ _ _ _
              ((ringOk_toState { s with allowComma := false } STATE_TONAME :
                RingOk s _))
          · rw [if_neg hC]
            by_cases hW : (!isWhiteSpace c) = true
            · rw [if_pos hW]
              exact ringOk3_of _ _ _ _ (ringOk_jsonError s ERR_PARSE_OBJECT)
            · rw [if_neg hW]
              exact ringOk3_of _ _ _ _ (ringOk_pure s s [] rfl rfl)
    · rw [if_neg h1]
      by_cases h2 : s.state = STATE_TONAME
      · rw [if_pos h2]
        by_cases hA : c = '"'
        · rw [if_pos hA]
          exact ringOk3_of _ _ _ _ (ringOk_setState s STATE_INNAME)
        · rw [if_neg hA]
          by_cases hW : (!isWhiteSpace c) = true
          · rw [if_pos hW]
            exact ringOk3_of _ _ _ _ (ringOk_jsonError s ERR_PARSE_NAME)
          · rw [if_neg hW]
            exact ringOk3_of _ _ _ _ (ringOk_pure s s [] rfl rfl)
      · rw [if_neg h2]
        by_cases h3 : s.state = STATE_INNAME
        · rw [if_pos h3]
          by_cases hA : c = '"'
          · rw [if_pos hA]
            exact ringOk3_of _ _ _ _ (ringOk_setState s STATE_TOCOLUMN)
          · rw [if_neg hA]
            by_cases hV : isValidNameChar c = true
            · rw [if_pos hV]
              exact ringOk3_of _ _ _ _ (ringOk_appendName s c)
            · rw [if_neg hV]
              exact ringOk3_of _ _ _ _ (ringOk_jsonError s ERR_PARSE_ILLNAME)
        · rw [if_neg h3]
          by_cases h4 : s.state = STATE_TOCOLUMN
          · rw [if_pos h4]
            by_cases hA : c = ':'
            · rw [if_pos hA]
              exact ringOk3_of _ _ _ _ (ringOk_setState s STATE_TOVALUE)
            · rw [if_neg hA]
              by_cases hW : (!isWhiteSpace c) = true
              · rw [if_pos hW]
                exact ringOk3_of _ _ _ _
                  (ringOk_jsonError s ERR_PARSE_ASSIGNMENT)
              · rw [if_neg hW]
                exact ringOk3_of _ _ _ _ (ringOk_pure s s [] rfl rfl)
          · rw [if_neg h4]
            by_cases h5 : s.state = STATE_TOVALUE
            · rw [if_pos h5]
              by_cases hA : c = '"'
              · rw [if_pos hA]
                exact ringOk3_of _ _ _ _
                  ((ringOk_setState { s with isSlash := false } STATE_INSTRING :
                    RingOk s _))
              · rw [if_neg hA]
                by_cases hN : (isNum c || isSign c) = true
                · rw [if_pos hN]
                  exact ringOk3_of _ _ _ _ (ringOk_comp s (appendValue s c)
                    (setState (appendValue s c).1 STATE_INNUM)
                    (ringOk_appendValue s c) (ringOk_setState _ STATE_INNUM))
                · rw [if_neg hN]
                  by_cases hB : c = '['
                  · rw [if_pos hB]
                    exact ringOk3_of _ _ _ _
                      (ringOk_ev_comp s [Event.arrayStart (nameRow s)]
                        (setState s STATE_INARRAY)
                        (toState (setState s STATE_INARRAY).1 STATE_TONAME) _
                        rfl (ringOk_setState s STATE_INARRAY)
                        (ringOk_toState _ STATE_TONAME) (by rfl))
                  · rw [if_neg hB]
                    by_cases hD : c = '{'
                    · rw [if_pos hD]
                      exact ringOk3_of _ _ _ _
                        (ringOk_ev_comp s [Event.objectStart (nameRow s)]
                          (setState s STATE_INOBJECT)
                          (toState (setState s STATE_INOBJECT).1 STATE_TONAME)
                          _ rfl (ringOk_setState s STATE_INOBJECT)
                          (ringOk_toState _ STATE_TONAME) (by rfl))
                    · rw [if_neg hD]
                      by_cases hW : (!isWhiteSpace c) = true
                      · rw [if_pos hW]
                        exact ringOk3_of _ _ _ _
                          (ringOk_jsonError s ERR_PARSE_VALUE)
                      · rw [if_neg hW]
                        exact ringOk3_of _ _ _ _ (ringOk_pure s s [] rfl rfl)
            · rw [if_neg h5]
              by_cases h6 : s.state = STATE_INSTRING
              · rw [if_pos h6]
                by_cases hA : (!s.isSlash && decide (c = '\\')) = true
                · rw [if_pos hA]
                  exact ringOk3_of _ _ _ _
                    (ringOk_pure s { s with isSlash := true } [] rfl rfl)
                · rw [if_neg hA]
                  by_cases hB : s.isSlash = true
                  · rw [if_pos hB]
                    exact ringOk3_of _ _ _ _
                      (ringOk_comp s (appendValue { s with isSlash := false } '\\')
                        (appendValue
                          (appendValue { s with isSlash := false } '\\').1 c)
                        ((ringOk_appendValue { s with isSlash := false } '\\' :
                          RingOk s _))
                        (ringOk_appendValue _ c))
                  · rw [if_neg hB]
                    by_cases hC : c = '"'
                    · rw [if_pos hC]
                      exact ringOk3_of _ _ _ _
                        (ringOk_ev1 s [Event.stringValue (nameRow s) (valueRow s)]
                          (setState s STATE_OUTVALUE) rfl
                          (ringOk_setState s STATE_OUTVALUE))
                    · rw [if_neg hC]
                      exact ringOk3_of _ _ _ _ (ringOk_appendValue s c)
              · rw [if_neg h6]
                by_cases h7 : s.state = STATE_INNUM
                · rw [if_pos h7]
                  by_cases hA : isNum c = true
                  · rw [if_pos hA]
                    exact ringOk3_of _ _ _ _ (ringOk_appendValue s c)
                  · rw [if_neg hA]
                    exact ringOk3_of _ _ _ _
                      (ringOk_ev1 s
                        [Event.integerValue (nameRow s) (Atoi (valueRow s))]
                        (setState s STATE_OUTVALUE) rfl
                        (ringOk_setState s STATE_OUTVALUE))
                · rw [if_neg h7]
                  by_cases h8 : s.state = STATE_INARRAY
                  · rw [if_pos h8]
                    by_cases hA : c = ']'
                    · rw [if_pos hA]
                      exact ringOk3_of _ _ _ _
                        (ringOk_ev1 s [Event.arrayComplete (nameRow s)]
                          (upState s) rfl (ringOk_upState s))
                    · rw [if_neg hA]
                      by_cases hB : c = '"'
                      · rw [if_pos hB]
                        exact ringOk3_of _ _ _ _ (ringOk_toState s STATE_INNAME)
                      · rw [if_neg hB]
                        by_cases hC : (decide (c = ',') && s.allowComma) = true
                        · rw [if_pos hC]
                          exact ringOk3_of _ _ _ _
                            ((ringOk_toState { s with allowComma := false }
                              STATE_TONAME : RingOk s _))
                        · rw [if_neg hC]
                          by_cases hW : (!isWhiteSpace c) = true
                          · rw [if_pos hW]
                            exact ringOk3_of _ _ _ _
                              (ringOk_jsonError s ERR_PARSE_ARRAY)
                          · rw [if_neg hW]
                            exact ringOk3_of _ _ _ _ (ringOk_pure s s [] rfl rfl)
                  · rw [if_neg h8]
                    by_cases h9 : s.state = STATE_OUTVALUE
                    · rw [if_pos h9]
                      by_cases hW : (!isWhiteSpace c) = true
                      · rw [if_pos hW]
                        by_cases hA : c = ','
                        · rw [if_pos hA]
                          exact ringOk3_of _ _ _ _ (ringOk_toState s STATE_TONAME)
                        · rw [if_neg hA]
                          exact ringOk3_of _ _ _ _ (ringOk_upState s)
                      · rw [if_neg hW]
                        exact ringOk3_of _ _ _ _ (ringOk_pure s s [] rfl rfl)
                    · rw [if_neg h9]
                      exact ringOk3_of _ _ _ _ (ringOk_pure s s [] rfl rfl)

/-- The whole re-dispatch loop respects the diagnostic ring. -/
theorem ringOk_eatFuel (fuel : Nat) :
    ∀ (s : ParserState) (c : Char), RingOk s (eatFuel fuel s c) := by
  induction fuel with
  | zero => intro s c; exact ringOk_pure s s [] rfl rfl
  | succ n ih =>
    intro s c
    by_cases h : (eatStep s c).2.2 = true
    · rw [eatFuel_succ_again n s c h]
      exact ringOk_comp s ((eatStep s c).1, (eatStep s c).2.1)
        (eatFuel n (eatStep s c).1 c) (ringOk_eatStep s c) (ih _ c)
    · rw [eatFuel_succ_step n s c (by simpa using h)]
      exact ringOk_eatStep s c

theorem ringOk_jsonEatNoLog (s : ParserState) (c : Char) :
    RingOk s (jsonEatNoLog s c) :=
  ringOk_eatFuel _ s c

theorem ringOf_setRing (s : ParserState) (r : List Char × Nat × Nat) :
    ringOf (setRing s r) = r := rfl

theorem errWindow_setRing (s : ParserState) (r : List Char × Nat × Nat) :
    errWindow (setRing s r) = windowR r := rfl

/-- A jsonEat call that reports no error advances the ring exactly by the
logging prelude. -/
theorem ring_jsonEat_noerr (s : ParserState) (c : Char)
    (h : errCtxs (jsonEat s c).2 = []) :
    ringOf (jsonEat s c).1 = logRing (ringOf s) c := by
  rw [jsonEat_eq] at h ⊢
  exact ((ringOk_jsonEatNoLog (setRing s (logRing (ringOf s) c)) c).1 h).trans
    (ringOf_setRing s (logRing (ringOf s) c))

/-- The first error context a jsonEat call reports is the window of the ring
after the call's own logging prelude. -/
theorem ring_jsonEat_err (s : ParserState) (c : Char) (x : List Char)
    (h : (errCtxs (jsonEat s c).2).head? = some x) :
    x = cString (windowR (logRing (ringOf s) c)) := by
  rw [jsonEat_eq] at h
  have hx := (ringOk_jsonEatNoLog (setRing s (logRing (ringOf s) c)) c).2 x h
  rw [hx, errWindow_setRing]

/-- An error-free feed folds the logging prelude over the characters. -/
theorem feed_ring (u : List Char) :
    ∀ (s : ParserState), errCtxs (feedList s u).2 = [] →
      ringOf (feedList s u).1 = u.foldl logRing (ringOf s) := by
  induction u with
  | nil => intro s _; rfl
  | cons c t ih =>
    intro s h
    have h' : errCtxs ((jsonEat s c).2 ++ (feedList (jsonEat s c).1 t).2) = [] := h
    rw [errCtxs_append] at h'
    rcases List.append_eq_nil.mp h' with ⟨h1, h2⟩
    have g1 : (feedList s (c :: t)).1 = (feedList (jsonEat s c).1 t).1 := rfl
    rw [g1, ih (jsonEat s c).1 h2, ring_jsonEat_noerr s c h1]
    rfl

/-- The first error raised at the character following an error-free feed
carries the window of the ring as logged through that character. -/
theorem feed_first_err (s : ParserState) (u : List Char) (c : Char)
    (x : List Char)
    (hu : errCtxs (feedList s u).2 = [])
    (hx : (errCtxs (feedList s (u ++ [c])).2).head? = some x) :
    x = cString (windowR ((u ++ [c]).foldl logRing (ringOf s))) := by
  rw [feedList_append] at hx
  have hx' : (errCtxs ((feedList s u).2 ++
      (feedList (feedList s u).1 [c]).2)).head? = some x := hx
  rw [errCtxs_append, hu, List.nil_append] at hx'
  have hx2 : (errCtxs ((jsonEat (feedList s u).1 c).2 ++ [])).head? = some x :=
    hx'
  rw [List.append_nil] at hx2
  have hh := ring_jsonEat_err (feedList s u).1 c x hx2
  rw [feed_ring u s hu] at hh
  rw [hh, List.foldl_append]
  rfl

/-- Logging a non-whitespace character: store at the write index, advance
it with wrap-around, count the character. -/
theorem logRing_good (r : List Char × Nat × Nat) (c : Char)
    (hws : isWhiteSpace c = false) :
    logRing r c = (r.1.set r.2.1 c,
      if r.2.1 + 1 ≥ MAXERRORBUFFER then 0 else r.2.1 + 1, r.2.2 + 1) := by
  unfold logRing
  dsimp only
  rw [if_neg (by simp [hws])]
  by_cases hI : r.2.1 + 1 ≥ MAXERRORBUFFER
  · rw [if_pos hI, if_pos hI]
  · rw [if_neg hI, if_neg hI]

theorem getD_set_eq_c (l : List Char) (i : Nat) (x : Char)
    (h : i < l.length) : (l.set i x).getD i nulChar = x := by
  rw [List.getD_eq_getElem _ _ (by simpa using h)]
  simp [List.getElem_set]

theorem getD_set_ne_c (l : List Char) (i j : Nat) (x : Char)
    (h : i ≠ j) : (l.set i x).getD j nulChar = l.getD j nulChar := by
  simp [List.getD_eq_getD_get?, List.get?_eq_getElem?, List.getElem?_set_ne h]

/-- Folding the logging prelude over a stream of ordinary characters keeps
the invariants of the ring: the character count, the wrapped write index,
the buffer size, and the window contents, which are the most recent
characters of the stream in order. -/
theorem ringPure (u : List Char) (hg : ∀ c ∈ u, goodChar c = true) :
    (u.foldl logRing initRing).2.2 = u.length ∧
    (u.foldl logRing initRing).2.1 = u.length % MAXERRORBUFFER ∧
    (u.foldl logRing initRing).1.length = MAXERRORBUFFER ∧
    ∀ j < min u.length MAXERRORBUFFER,
      (u.foldl logRing initRing).1.getD
        (((u.foldl logRing initRing).2.1 + MAXERRORBUFFER
          - min u.length MAXERRORBUFFER + j) % MAXERRORBUFFER) nulChar =
      u.getD (u.length - MAXERRORBUFFER + j) nulChar := by
  induction u using List.reverseRecOn with
  | nil =>
    refine ⟨rfl, rfl, by simp [initRing, MAXERRORBUFFER], ?_⟩
    intro j hj
    simp [MAXERRORBUFFER] at hj
  | append_singleton u c ih =>
    have hgu : ∀ d ∈ u, goodChar d = true := fun d hd => hg d (by simp [hd])
    have hgc : goodChar c = true := hg c (by simp)
    have hws : isWhiteSpace c = false := by
      have h := hgc
      simp [goodChar] at h
      exact h.1
    obtain ⟨h1, h2, h3, h4⟩ := ih hgu
    have hfold : (u ++ [c]).foldl logRing initRing
        = logRing (u.foldl logRing initRing) c := by
      rw [List.foldl_append]
      rfl
    have hlog := logRing_good (u.foldl logRing initRing) c hws
    refine ⟨?_, ?_, ?_, ?_⟩
    · rw [hfold, hlog]
      simp [h1]
    · rw [hfold, hlog]
      dsimp only
      rw [h2]
      simp only [List.length_append, List.length_cons, List.length_nil,
        Nat.zero_add, MAXERRORBUFFER]
      by_cases hI : u.length % 20 + 1 ≥ 20
      · rw [if_pos hI]; omega
      · rw [if_neg hI]; omega
    · rw [hfold, hlog]
      simp [h3]
    · intro j hj
      rw [hfold, hlog]
      dsimp only
      rw [h2]
      rw [h2] at h4
      simp only [List.length_append, List.length_cons, List.length_nil,
        Nat.zero_add, MAXERRORBUFFER] at hj h3 h4 ⊢
      have hidx : (if u.length % 20 + 1 ≥ 20 then 0 else u.length % 20 + 1)
          = (u.length + 1) % 20 := by
        by_cases hI : u.length % 20 + 1 ≥ 20
        · rw [if_pos hI]; omega
        · rw [if_neg hI]; omega
      rw [hidx]
      by_cases hn : u.length < 20
      · have hpos : ((u.length + 1) % 20 + 20 - min (u.length + 1) 20 + j) % 20
            = j := by omega
        rw [hpos]
        by_cases hjn : j = u.length
        · subst hjn
          have e1 : u.length % 20 = u.length := by omega
          rw [e1]
          rw [getD_set_eq_c _ _ _ (by rw [h3]; omega)]
          have e2 : u.length + 1 - 20 + u.length = u.length := by omega
          rw [e2, List.getD_append_right _ _ _ _ (Nat.le_refl _)]
          simp
        · have hjlt : j < u.length := by omega
          have hne : u.length % 20 ≠ j := by omega
          rw [getD_set_ne_c _ _ _ _ hne]
          have h4j := h4 j (by omega)
          have e1 : (u.length % 20 + 20 - min u.length 20 + j) % 20 = j := by
            omega
          rw [e1] at h4j
          rw [h4j]
          have e2 : u.length - 20 + j = j := by omega
          rw [e2]
          have e3 : u.length + 1 - 20 + j = j := by omega
          rw [e3, List.getD_append _ _ _ _ hjlt]
      · push_neg at hn
        by_cases hj19 : j = 19
        · subst hj19
          have hpos : ((u.length + 1) % 20 + 20 - min (u.length + 1) 20 + 19)
              % 20 = u.length % 20 := by omega
          rw [hpos]
          rw [getD_set_eq_c _ _ _ (by rw [h3]; omega)]
          have e2 : u.length + 1 - 20 + 19 = u.length := by omega
          rw [e2, List.getD_append_right _ _ _ _ (Nat.le_refl _)]
          simp
        · have hj18 : j < 19 := by omega
          have hpos : ((u.length + 1) % 20 + 20 - min (u.length + 1) 20 + j)
              % 20 = (u.length % 20 + 20 - min u.length 20 + (j + 1)) % 20 := by
            omega
          rw [hpos]
          have hne : u.length % 20
              ≠ (u.length % 20 + 20 - min u.length 20 + (j + 1)) % 20 := by
            omega
          rw [getD_set_ne_c _ _ _ _ hne]
          have h4j := h4 (j + 1) (by omega)
          rw [h4j]
          have e2 : u.length + 1 - 20 + j = u.length - 20 + (j + 1) := by omega
          rw [e2]
          have hbound : u.length - 20 + (j + 1) < u.length := by omega
          rw [List.getD_append _ _ _ _ hbound]

/-- The window of the folded ring over ordinary characters is the last
MAXERRORBUFFER characters of the stream. -/
theorem windowR_fold (u : List Char) (hg : ∀ c ∈ u, goodChar c = true) :
    windowR (u.foldl logRing initRing)
      = u.drop (u.length - MAXERRORBUFFER) := by
  obtain ⟨h1, h2, h3, h4⟩ := ringPure u hg
  unfold windowR
  dsimp only
  rw [h1, h2]
  rw [h2] at h4
  apply List.ext_getElem
  · simp only [List.length_map, List.length_range, List.length_drop,
      MAXERRORBUFFER]
    omega
  · intro n hn1 hn2
    simp only [List.length_map, List.length_range] at hn1
    simp only [List.getElem_map, List.getElem_range]
    rw [h4 n hn1]
    rw [List.getElem_drop]
    have hn1' := hn1
    simp only [MAXERRORBUFFER] at hn1'
    have hb : u.length - MAXERRORBUFFER + n < u.length := by
      simp only [MAXERRORBUFFER]
      omega
    rw [List.getD_eq_getElem _ _ hb]

set_option maxRecDepth 2000 in
/-- C4 (amended): for a whitespace-free NUL-free document fed to a fresh
slot, if the first i characters raise no error and character i + 1 raises
one, the context delivered with that first error is exactly the most recent
min(MAXERRORBUFFER, characters consumed) characters of the document, oldest
first. -/
theorem C4_thm (w : List Char) (i : Nat) (x : List Char)
    (hg : ∀ c ∈ w, goodChar c = true)
    (hi : i < w.length)
    (hpre : errCtxs (feedList initState (w.take i)).2 = [])
    (hx : (errCtxs (feedList initState (w.take (i + 1))).2).head? = some x) :
    x = (w.take (i + 1)).drop (i + 1 - MAXERRORBUFFER) := by
  have htake : w.take (i + 1) = w.take i ++ [w[i]] := by
    rw [List.take_succ, List.getElem?_eq_getElem hi]
    rfl
  rw [htake] at hx ⊢
  have hgs : ∀ c ∈ w.take i ++ [w[i]], goodChar c = true := by
    intro d hd
    rcases List.mem_append.mp hd with hd | hd
    · exact hg d (List.mem_of_mem_take hd)
    · have hd' : d = w[i] := by simpa using hd
      rw [hd']
      exact hg _ (List.getElem_mem hi)
  have hfe := feed_first_err initState (w.take i) (w[i]) x hpre hx
  rw [show ringOf initState = initRing from rfl] at hfe
  rw [windowR_fold _ hgs] at hfe
  have hlen : (w.take i ++ [w[i]]).length = i + 1 := by
    simp only [List.length_append, List.length_take, List.length_cons,
      List.length_nil, Nat.zero_add]
    omega
  rw [hlen] at hfe
  have hnul : ∀ d ∈ (w.take i ++ [w[i]]).drop (i + 1 - MAXERRORBUFFER),
      ¬(d = nulChar) := by
    intro d hd
    have hmem := hgs d (List.mem_of_mem_drop hd)
    simp [goodChar] at hmem
    exact hmem.2
  rw [cString_eq_self _ hnul] at hfe
  exact hfe

set_option maxRecDepth 2000 in
/-- C4 witness: the two-character document brace-bang has an error-free
first character, errors at the second, and the delivered context is both
characters. -/
theorem C4_witness :
    (['\x7b', '!'] : List Char) =
      ((['\x7b', '!'] : List Char).take 2).drop (2 - MAXERRORBUFFER) :=
  C4_thm ['\x7b', '!'] 1 ['\x7b', '!'] (by decide) (by decide) (by decide)
    (by decide)

set_option maxRecDepth 8000 in
/-- C8 witness: at the concrete slot state expecting the value of field c
with the comma-allowed flag set, consuming the nested opening brace leaves
the flag unchanged; and the top-level opening brace from a fresh idle slot
clears it. -/
theorem C8_witness :
    (jsonEat (feedList initState doc8).1 '\x7b').1.allowComma =
      (feedList initState doc8).1.allowComma ∧
    (jsonEat initState '\x7b').1.allowComma = false := by
  constructor
  · exact ((C8_thm (feedList initState doc8).1).2.2.2.2.1
      (by decide) (by decide) (by decide)).1
  · exact (C8_thm initState).1 (by decide)

end Json
